import Mathlib

/-!
# kafkawrite: a shallow embedding of `main.go`

The program fetches a JSON list of issues over HTTP (`readData`), decodes it,
re-encodes every issue on its own and hands each encoding to a Kafka broker
through a synchronous sarama producer (`sendData`, `writeToKafkaTopic`).

Modelling conventions.

* Go `string` values that hold text are Lean `String`s (sequences of Unicode
  scalar values, standing for their UTF-8 encoding); a `[]byte` buffer is a
  `List UInt8`.  The strings of a decoded `Issue` are always well-formed UTF-8:
  the decoder replaces every ill-formed byte by U+FFFD.
* A Go `int` has 64 bits; the field `ID` is an `Int`, and the decoder rejects a
  number outside the 64-bit range.
* `encoding/json` and `sarama.NewConfig` are deterministic library functions
  and are modelled concretely, as far as the `Issue` type exercises them.
* The Kafka broker and the HTTP server are the environment: they are oracles
  whose answers may depend on everything that happened before.  Every
  externally visible action of the program is appended to a trace of events.
* `log.Fatal` ends the process; a function that may call it returns an
  `Outcome`.
-/

namespace KafkaWrite

/-! ## `unicode/utf8`: decoding a byte buffer, one rune at a time -/

namespace utf8

/-- The replacement rune U+FFFD that Go substitutes for an ill-formed byte. -/
def RuneError : Char := Char.ofNat 0xFFFD

/-- A continuation byte `10xxxxxx`. -/
def isCont (b : UInt8) : Bool := 0x80 ≤ b.toNat && b.toNat ≤ 0xBF

/-- The bounds that Go's `acceptRanges` table puts on the second byte of a
multi-byte sequence, by first byte. -/
def secondOk (b0 b1 : UInt8) : Bool :=
  if b0.toNat = 0xE0 then 0xA0 ≤ b1.toNat && b1.toNat ≤ 0xBF
  else if b0.toNat = 0xED then 0x80 ≤ b1.toNat && b1.toNat ≤ 0x9F
  else if b0.toNat = 0xF0 then 0x90 ≤ b1.toNat && b1.toNat ≤ 0xBF
  else if b0.toNat = 0xF4 then 0x80 ≤ b1.toNat && b1.toNat ≤ 0x8F
  else isCont b1

/-- Go's `utf8.DecodeRune`: the first rune of the buffer and the number of bytes
it takes; an ill-formed or truncated sequence gives `RuneError` and width 1. -/
def DecodeRune : List UInt8 → Char × Nat
  | [] => (RuneError, 0)
  | b0 :: rest =>
    if b0.toNat < 0x80 then (Char.ofNat b0.toNat, 1)
    else if b0.toNat < 0xC2 then (RuneError, 1)
    else if b0.toNat < 0xE0 then
      match rest with
      | b1 :: _ =>
        if isCont b1 then (Char.ofNat ((b0.toNat % 0x20) * 0x40 + b1.toNat % 0x40), 2)
        else (RuneError, 1)
      | [] => (RuneError, 1)
    else if b0.toNat < 0xF0 then
      match rest with
      | b1 :: b2 :: _ =>
        if secondOk b0 b1 && isCont b2 then
          (Char.ofNat ((b0.toNat % 0x10) * 0x1000 + (b1.toNat % 0x40) * 0x40
            + b2.toNat % 0x40), 3)
        else (RuneError, 1)
      | _ => (RuneError, 1)
    else if b0.toNat < 0xF5 then
      match rest with
      | b1 :: b2 :: b3 :: _ =>
        if secondOk b0 b1 && isCont b2 && isCont b3 then
          (Char.ofNat ((b0.toNat % 0x08) * 0x40000 + (b1.toNat % 0x40) * 0x1000
            + (b2.toNat % 0x40) * 0x40 + b3.toNat % 0x40), 4)
        else (RuneError, 1)
      | _ => (RuneError, 1)
    else (RuneError, 1)

/-- The runes of a buffer: `DecodeRune` at every rune boundary.  `skip` counts
the bytes still belonging to the rune decoded last. -/
def decodeFrom : Nat → List UInt8 → List Char
  | _, [] => []
  | skip + 1, _ :: rest => decodeFrom skip rest
  | 0, b :: rest => (DecodeRune (b :: rest)).1 :: decodeFrom ((DecodeRune (b :: rest)).2 - 1) rest

/-- The text a buffer holds, read the way the JSON decoder reads it. -/
def decode (p : List UInt8) : List Char := decodeFrom 0 p

end utf8

/-! ## `encoding/json`: the text of a JSON document -/

namespace json

/-- A parsed JSON value.  A number keeps its literal: whether it fits a Go `int`
is decided when it is stored. -/
inductive Value where
  | null
  | bool (b : Bool)
  | number (lit : List Char)
  | string (s : List Char)
  | array (xs : List Value)
  | object (kvs : List (List Char × Value))

/-- The scanner's `isSpace`. -/
def isSpace (c : Char) : Bool := c = ' ' || c = '\t' || c = '\r' || c = '\n'

/-- Drop leading white space. -/
def skipSpace : List Char → List Char
  | [] => []
  | c :: cs => if isSpace c then skipSpace cs else c :: cs

/-- Value of one hexadecimal digit. -/
def hexVal (c : Char) : Option Nat :=
  if '0' ≤ c ∧ c ≤ '9' then some (c.toNat - 48)
  else if 'a' ≤ c ∧ c ≤ 'f' then some (c.toNat - 87)
  else if 'A' ≤ c ∧ c ≤ 'F' then some (c.toNat - 55)
  else none

/-- The decoder's `getu4`: the code unit written by four hexadecimal digits. -/
def getu4 (a b c d : Char) : Option Nat :=
  match hexVal a, hexVal b, hexVal c, hexVal d with
  | some x, some y, some z, some w => some (((x * 16 + y) * 16 + z) * 16 + w)
  | _, _, _, _ => none

/-- The rune of a single-character escape `\c`, if `c` is one the scanner allows. -/
def simpleEscape (c : Char) : Option Char :=
  if c = '"' then some '"'
  else if c = '\\' then some '\\'
  else if c = '/' then some '/'
  else if c = 'b' then some (Char.ofNat 8)
  else if c = 'f' then some (Char.ofNat 12)
  else if c = 'n' then some '\n'
  else if c = 'r' then some '\r'
  else if c = 't' then some '\t'
  else none

/-- The second half of a surrogate pair: the code unit of a `\uXXXX` escape at
the head of the input, when it is a low surrogate. -/
def lowSurrogate : List Char → Option Nat
  | bs :: u :: a :: b :: c :: d :: _ =>
    if bs = '\\' ∧ u = 'u' then
      match getu4 a b c d with
      | some lo => if 0xDC00 ≤ lo ∧ lo < 0xE000 then some lo else none
      | none => none
    else none
  | _ => none

/-- One rune of a string literal's content and the number of characters that
spell it (`unquoteBytes`, with the scanner's checks): a plain character, a
two-character escape, a `\uXXXX` escape, or a surrogate pair of two of them.
A lone surrogate reads as U+FFFD. -/
def unquoteRune : List Char → Option (Char × Nat)
  | [] => none
  | c :: rest =>
    if c = '\\' then
      match rest with
      | [] => none
      | e :: rest1 =>
        if e = 'u' then
          match rest1 with
          | h1 :: h2 :: h3 :: h4 :: rest2 =>
            match getu4 h1 h2 h3 h4 with
            | none => none
            | some u =>
              if 0xD800 ≤ u ∧ u < 0xE000 then
                if u < 0xDC00 then
                  match lowSurrogate rest2 with
                  | some lo =>
                    some (Char.ofNat (0x10000 + (u - 0xD800) * 0x400 + (lo - 0xDC00)), 12)
                  | none => some (utf8.RuneError, 6)
                else some (utf8.RuneError, 6)
              else some (Char.ofNat u, 6)
          | _ => none
        else
          match simpleEscape e with
          | some r => some (r, 2)
          | none => none
    else if c.toNat < 0x20 then none
    else some (c, 1)

/-- The content of a string literal whose opening quote has been read, and the
input after its closing quote.  `skip` counts the characters still belonging to
the rune read last. -/
def unquoteFrom : Nat → List Char → Option (List Char × List Char)
  | _, [] => none
  | skip + 1, _ :: rest => unquoteFrom skip rest
  | 0, c :: rest =>
    if c = '"' then some ([], rest)
    else
      match unquoteRune (c :: rest) with
      | none => none
      | some (r, w) =>
        match unquoteFrom (w - 1) rest with
        | none => none
        | some (s, rest1) => some (r :: s, rest1)

/-- Longest run of decimal digits at the head of the input. -/
def takeDigits : List Char → List Char × List Char
  | [] => ([], [])
  | c :: cs =>
    if '0' ≤ c ∧ c ≤ '9' then ((c :: (takeDigits cs).1), (takeDigits cs).2)
    else ([], c :: cs)

/-- Integer part of a number literal: `0`, or a nonzero digit and more digits. -/
def scanInt : List Char → Option (List Char × List Char)
  | [] => none
  | c :: cs =>
    if c = '0' then some (['0'], cs)
    else if '1' ≤ c ∧ c ≤ '9' then some (c :: (takeDigits cs).1, (takeDigits cs).2)
    else none

/-- Optional fraction: a point and at least one digit. -/
def scanFrac : List Char → Option (List Char × List Char)
  | [] => some ([], [])
  | c :: cs =>
    if c = '.' then
      match takeDigits cs with
      | ([], _) => none
      | (ds, rest) => some ('.' :: ds, rest)
    else some ([], c :: cs)

/-- Digits of an exponent, after its optional sign. -/
def scanExpDigits (pre : List Char) (cs : List Char) : Option (List Char × List Char) :=
  match takeDigits cs with
  | ([], _) => none
  | (ds, rest) => some (pre ++ ds, rest)

/-- Optional exponent: `e` or `E`, an optional sign and at least one digit. -/
def scanExp : List Char → Option (List Char × List Char)
  | [] => some ([], [])
  | c :: cs =>
    if c = 'e' ∨ c = 'E' then
      match cs with
      | s :: cs1 =>
        if s = '+' ∨ s = '-' then scanExpDigits [c, s] cs1 else scanExpDigits [c] cs
      | [] => none
    else some ([], c :: cs)

/-- A number literal at the head of the input (the scanner's states `stateNeg`
to `stateE0`), with the input after it. -/
def scanNumber (cs : List Char) : Option (List Char × List Char) :=
  let signed : List Char × List Char :=
    match cs with
    | c :: cs1 => if c = '-' then (['-'], cs1) else ([], cs)
    | [] => ([], cs)
  match scanInt signed.2 with
  | none => none
  | some (i, r1) =>
    match scanFrac r1 with
    | none => none
    | some (f, r2) =>
      match scanExp r2 with
      | none => none
      | some (e, r3) => some (signed.1 ++ i ++ f ++ e, r3)

/-- The input after a given word, if the input starts with it. -/
def expect : List Char → List Char → Option (List Char)
  | [], cs => some cs
  | _ :: _, [] => none
  | w :: ws, c :: cs => if w = c then expect ws cs else none

mutual
/-- One JSON value at the head of the input, after optional white space, and the
input after it.  `fuel` bounds the nesting and the number of siblings. -/
def parseValue : Nat → List Char → Option (Value × List Char)
  | 0, _ => none
  | fuel + 1, cs =>
    match skipSpace cs with
    | [] => none
    | c :: rest =>
      if c = '{' then
        match skipSpace rest with
        | [] => none
        | d :: rest1 =>
          if d = '}' then some (Value.object [], rest1)
          else
            match parseMembers fuel (d :: rest1) with
            | none => none
            | some (kvs, r) => some (Value.object kvs, r)
      else if c = '[' then
        match skipSpace rest with
        | [] => none
        | d :: rest1 =>
          if d = ']' then some (Value.array [], rest1)
          else
            match parseElements fuel (d :: rest1) with
            | none => none
            | some (vs, r) => some (Value.array vs, r)
      else if c = '"' then
        match unquoteFrom 0 rest with
        | none => none
        | some (str, r) => some (Value.string str, r)
      else if c = 't' then
        match expect ['r', 'u', 'e'] rest with
        | none => none
        | some r => some (Value.bool true, r)
      else if c = 'f' then
        match expect ['a', 'l', 's', 'e'] rest with
        | none => none
        | some r => some (Value.bool false, r)
      else if c = 'n' then
        match expect ['u', 'l', 'l'] rest with
        | none => none
        | some r => some (Value.null, r)
      else
        match scanNumber (c :: rest) with
        | none => none
        | some (lit, r) => some (Value.number lit, r)
/-- The elements of an array up to and including its closing bracket. -/
def parseElements : Nat → List Char → Option (List Value × List Char)
  | 0, _ => none
  | fuel + 1, cs =>
    match parseValue fuel cs with
    | none => none
    | some (v, r) =>
      match skipSpace r with
      | [] => none
      | c :: r1 =>
        if c = ',' then
          match parseElements fuel r1 with
          | none => none
          | some (vs, r2) => some (v :: vs, r2)
        else if c = ']' then some ([v], r1)
        else none
/-- The members of an object up to and including its closing brace. -/
def parseMembers : Nat → List Char → Option (List (List Char × Value) × List Char)
  | 0, _ => none
  | fuel + 1, cs =>
    match skipSpace cs with
    | [] => none
    | q :: r0 =>
      if q = '"' then
        match unquoteFrom 0 r0 with
        | none => none
        | some (key, r1) =>
          match skipSpace r1 with
          | [] => none
          | colon :: r2 =>
            if colon = ':' then
              match parseValue fuel r2 with
              | none => none
              | some (v, r3) =>
                match skipSpace r3 with
                | [] => none
                | c :: r4 =>
                  if c = ',' then
                    match parseMembers fuel r4 with
                    | none => none
                    | some (kvs, r5) => some ((key, v) :: kvs, r5)
                  else if c = '}' then some ([(key, v)], r4)
                  else none
            else none
      else none
end

/-- A whole document: one value, with nothing but white space around it. -/
def parseDocument (cs : List Char) : Option Value :=
  match parseValue (2 * cs.length + 2) cs with
  | none => none
  | some (v, rest) => if skipSpace rest = [] then some v else none

end json

/-! ## The data model of `main.go` -/

/-- A Go `error` value: its message. -/
abbrev Error := String

/-- Issue represents a github issue. -/
structure Issue where
  /-- Field `ID int`, JSON member `id`. -/
  ID : Int
  /-- Field `Title string`, JSON member `title`. -/
  Title : String
  /-- Field `State string`, JSON member `state`. -/
  State : String
  /-- Field `Body string`, JSON member `body`. -/
  Body : String
deriving DecidableEq, Repr

/-- Issues is an array of github issues. -/
abbrev Issues := List Issue

/-- The zero value of `Issue`. -/
def Issue.zero : Issue := { ID := 0, Title := "", State := "", Body := "" }

/-! ## `encoding/json`: decoding into and encoding from `Issue` -/

namespace json

/-- Case folding of member names: ASCII capitals, and the two letters outside
ASCII that fold to an ASCII letter (U+017F to `s`, U+212A to `k`). -/
def foldRune (c : Char) : Char :=
  if 'A' ≤ c ∧ c ≤ 'Z' then Char.ofNat (c.toNat + 32)
  else if c = Char.ofNat 0x17F then 's'
  else if c = Char.ofNat 0x212A then 'k'
  else c

/-- A member named `key` is stored in the field tagged `name` when the two are
equal up to case. -/
def equalFold (key name : List Char) : Bool := key.map foldRune = name.map foldRune

/-- Value of a run of decimal digits, continuing from `acc`. -/
def decimal : List Char → Nat → Option Nat
  | [], acc => some acc
  | c :: cs, acc =>
    if '0' ≤ c ∧ c ≤ '9' then decimal cs (acc * 10 + (c.toNat - 48)) else none

/-- The call `strconv.ParseInt(lit, 10, 64)` on a number literal: only an
optional minus sign and digits are accepted, and the value must fit 64 bits. -/
def parseInt : List Char → Option Int
  | [] => none
  | c :: cs =>
    if c = '-' then
      if cs = [] then none
      else
        match decimal cs 0 with
        | none => none
        | some n => if n ≤ 2 ^ 63 then some (-(n : Int)) else none
    else
      match decimal (c :: cs) 0 with
      | none => none
      | some n => if n < 2 ^ 63 then some (n : Int) else none

/-- Store a value in the field `ID int`: `null` leaves the field as it is, a number
must be an integer that fits, anything else is an `UnmarshalTypeError`. -/
def storeID (issue : Issue) : Value → Option Issue
  | Value.null => some issue
  | Value.number lit =>
    match parseInt lit with
    | none => none
    | some n => some { issue with ID := n }
  | _ => none

/-- Store a value in a field of type `string`, given how to set the field: `null`
leaves the field as it is, anything but a string is an `UnmarshalTypeError`. -/
def storeString (issue : Issue) (set : Issue → String → Issue) : Value → Option Issue
  | Value.null => some issue
  | Value.string str => some (set issue (String.mk str))
  | _ => none

/-- Store one object member in an `Issue`.  A member with an unknown name is
skipped. -/
def storeField (issue : Issue) (key : List Char) (v : Value) : Option Issue :=
  if equalFold key ['i', 'd'] then storeID issue v
  else if equalFold key ['t', 'i', 't', 'l', 'e'] then
    storeString issue (fun i str => { i with Title := str }) v
  else if equalFold key ['s', 't', 'a', 't', 'e'] then
    storeString issue (fun i str => { i with State := str }) v
  else if equalFold key ['b', 'o', 'd', 'y'] then
    storeString issue (fun i str => { i with Body := str }) v
  else some issue

/-- Store the members of an object in order: a later member overwrites an
earlier one of the same field. -/
def storeMembers (issue : Issue) : List (List Char × Value) → Option Issue
  | [] => some issue
  | (key, v) :: kvs =>
    match storeField issue key v with
    | none => none
    | some issue1 => storeMembers issue1 kvs

/-- Decode one value into a fresh `Issue`. -/
def decodeIssue : Value → Option Issue
  | Value.null => some Issue.zero
  | Value.object kvs => storeMembers Issue.zero kvs
  | _ => none

/-- Decode the elements of an array, in order. -/
def decodeElements : List Value → Option Issues
  | [] => some []
  | v :: vs =>
    match decodeIssue v, decodeElements vs with
    | some issue, some rest => some (issue :: rest)
    | _, _ => none

/-- Decode a value into `Issues`: an array element by element, `null` as the
nil slice. -/
def decodeIssues : Value → Option Issues
  | Value.null => some []
  | Value.array vs => decodeElements vs
  | _ => none

/-- The call `json.Unmarshal(bytes, &issues)` with `issues` of type `Issues`: the
decoded list, or the error.  Go reports the first type error after decoding the
rest; the caller drops everything on any error, so only the error is kept. -/
def Unmarshal (bytes : List UInt8) : Except Error Issues :=
  match parseDocument (utf8.decode bytes) with
  | none => Except.error "json: invalid input"
  | some v =>
    match decodeIssues v with
    | none => Except.error "json: cannot unmarshal into Go value of type main.Issues"
    | some issues => Except.ok issues

/-- The call `json.Unmarshal([]byte(text), &issue)` with `issue` a zero `Issue`,
on a buffer given as the text it holds. -/
def UnmarshalIssue (text : String) : Except Error Issue :=
  match parseDocument text.data with
  | none => Except.error "json: invalid input"
  | some v =>
    match decodeIssue v with
    | none => Except.error "json: cannot unmarshal into Go value of type main.Issue"
    | some issue => Except.ok issue

/-- Lower-case hexadecimal digit. -/
def hexDigit (n : Nat) : Char :=
  if n < 10 then Char.ofNat (48 + n) else Char.ofNat (87 + n)

/-- How the encoder writes one rune of a string (HTML escaping on, as
`json.Marshal` has it).  A control character other than newline, carriage return
and tab is written `\u00XX`; Go versions from 1.22 on write `\b` and `\f` for two
of them, which `unquoteRune` reads back the same. -/
def escapeRune (c : Char) : List Char :=
  if c = '"' then ['\\', '"']
  else if c = '\\' then ['\\', '\\']
  else if c = '\n' then ['\\', 'n']
  else if c = '\r' then ['\\', 'r']
  else if c = '\t' then ['\\', 't']
  else if c.toNat < 0x20 ∨ c = '<' ∨ c = '>' ∨ c = '&' then
    ['\\', 'u', '0', '0', hexDigit (c.toNat / 16), hexDigit (c.toNat % 16)]
  else if c = Char.ofNat 0x2028 ∨ c = Char.ofNat 0x2029 then
    ['\\', 'u', '2', '0', '2', hexDigit (c.toNat % 16)]
  else [c]

/-- The escaped content of a string literal. -/
def escape : List Char → List Char
  | [] => []
  | c :: cs => escapeRune c ++ escape cs

/-- A string literal. -/
def quote (str : String) : List Char := '"' :: (escape str.data ++ ['"'])

/-- Decimal digits of a natural number, most significant first. -/
def digitsFuel : Nat → Nat → List Char
  | 0, _ => []
  | fuel + 1, n =>
    if n < 10 then [Char.ofNat (48 + n)]
    else digitsFuel fuel (n / 10) ++ [Char.ofNat (48 + n % 10)]

/-- The call `strconv.FormatInt(n, 10)`. -/
def formatInt (n : Int) : List Char :=
  if n < 0 then '-' :: digitsFuel (n.natAbs + 1) n.natAbs
  else digitsFuel (n.natAbs + 1) n.natAbs

/-- The text `json.Marshal` writes for an `Issue`: an object with the members
`id`, `title`, `state`, `body`, in the order of the fields. -/
def encodeIssue (issue : Issue) : List Char :=
  ['{', '"', 'i', 'd', '"', ':'] ++ formatInt issue.ID
    ++ [',', '"', 't', 'i', 't', 'l', 'e', '"', ':'] ++ quote issue.Title
    ++ [',', '"', 's', 't', 'a', 't', 'e', '"', ':'] ++ quote issue.State
    ++ [',', '"', 'b', 'o', 'd', 'y', '"', ':'] ++ quote issue.Body
    ++ ['}']

/-- The call `json.Marshal(issue)`: a struct of an int and three strings always
encodes, so the error is always nil. -/
def Marshal (issue : Issue) : Except Error String :=
  Except.ok (String.mk (encodeIssue issue))

end json

/-! ## `time` and `github.com/Shopify/sarama`: the values the program touches -/

namespace time

/-- A `time.Duration`: a number of nanoseconds. -/
abbrev Duration := Int

/-- The constant `time.Second`. -/
def Second : Duration := 1000000000

end time

namespace sarama

/-- The type `sarama.RequiredAcks`. -/
inductive RequiredAcks where
  | NoResponse
  | WaitForLocal
  | WaitForAll
deriving DecidableEq, Repr

/-- The partitioner constructors a `Config` can name. -/
inductive PartitionerConstructor where
  | NewManualPartitioner
  | NewRandomPartitioner
  | NewRoundRobinPartitioner
  | NewHashPartitioner
deriving DecidableEq, Repr

/-- The type `sarama.CompressionCodec`. -/
inductive CompressionCodec where
  | CompressionNone
  | CompressionGZIP
  | CompressionSnappy
  | CompressionLZ4
  | CompressionZSTD
deriving DecidableEq, Repr

/-- The type `sarama.KafkaVersion`: four numbers. -/
structure KafkaVersion where
  /-- The numbers, most significant first. -/
  version : Nat × Nat × Nat × Nat
deriving DecidableEq, Repr

/-- The constant `sarama.V1_0_0_0`. -/
def V1_0_0_0 : KafkaVersion := ⟨(1, 0, 0, 0)⟩

/-- The settings `Config.Producer.Return`. -/
structure ProducerReturn where
  /-- Deliver successes on the successes channel. -/
  Successes : Bool
  /-- Deliver errors on the errors channel. -/
  Errors : Bool
deriving DecidableEq, Repr

/-- The settings `Config.Producer`. -/
structure ProducerConfig where
  /-- Largest message accepted, in bytes. -/
  MaxMessageBytes : Nat
  /-- Acknowledgment the broker must give. -/
  RequiredAcks : RequiredAcks
  /-- How long the broker waits for the required acknowledgments. -/
  Timeout : time.Duration
  /-- Compression of the message sets. -/
  Compression : CompressionCodec
  /-- How a partition is chosen. -/
  Partitioner : PartitionerConstructor
  /-- What the producer reports back. -/
  Return : ProducerReturn
  /-- How often a failed send is tried again inside the library. -/
  RetryMax : Nat
deriving DecidableEq, Repr

/-- The settings `Config.Net`. -/
structure NetConfig where
  /-- Bound on establishing a connection. -/
  DialTimeout : time.Duration
  /-- Bound on reading a response. -/
  ReadTimeout : time.Duration
  /-- Bound on writing a request. -/
  WriteTimeout : time.Duration
  /-- Use TLS. -/
  TLSEnable : Bool
  /-- Use SASL authentication. -/
  SASLEnable : Bool
deriving DecidableEq, Repr

/-- The type `sarama.Config`, with the settings that bear on producing. -/
structure Config where
  /-- Network settings. -/
  Net : NetConfig
  /-- Producer settings. -/
  Producer : ProducerConfig
  /-- Client identifier sent with every request. -/
  ClientID : String
  /-- Protocol version assumed of the cluster. -/
  Version : KafkaVersion
deriving DecidableEq, Repr

/-- The type `sarama.RecordHeader`. -/
structure RecordHeader where
  /-- Header key. -/
  Key : List UInt8
  /-- Header value. -/
  Value : List UInt8
deriving DecidableEq, Repr

/-- The type `sarama.ProducerMessage`, with the fields a caller sets. -/
structure ProducerMessage where
  /-- Topic the message goes to. -/
  Topic : String
  /-- Partitioning key; `none` is the nil `Encoder`. -/
  Key : Option String
  /-- Payload, a `StringEncoder`. -/
  Value : String
  /-- Record headers; the nil slice is the empty list. -/
  Headers : List RecordHeader
deriving DecidableEq, Repr

end sarama

/-! ## The environment and the trace -/

/-- What a call of `sarama.NewSyncProducer` returned: a producer, named by a
handle, or an error. -/
inductive Opened where
  | producer (handle : Nat)
  | failed (err : Error)
deriving DecidableEq, Repr

/-- An externally visible action of the program, with the answer it got. -/
inductive Event where
  | HttpDo (method url : String)
  | BodyClose
  | NewSyncProducer (addrs : List String) (config : sarama.Config) (res : Opened)
  | SendMessage (producer : Nat) (msg : sarama.ProducerMessage) (err : Option Error)
  | Close (producer : Nat)
  | Stdout (text : String)
  | LogPrint (text : String)
deriving DecidableEq, Repr

/-- The history of a run, oldest event first. -/
abbrev Trace := List Event

/-- The sarama library and the broker behind it.  `NewConfig` is the value of
`sarama.NewConfig()`.  The two oracles give the error (`none` for nil) of an
attempt to connect and of a send, and may look at the whole history. -/
structure Env where
  /-- The library's default configuration. -/
  NewConfig : sarama.Config
  /-- Error of `sarama.NewSyncProducer(addrs, config)`. -/
  NewSyncProducer : Trace → List String → sarama.Config → Option Error
  /-- Error of `producer.SendMessage(msg)`. -/
  SendMessage : Trace → Nat → sarama.ProducerMessage → Option Error

/-- What `ioutil.ReadAll(resp.Body)` gives, and the status of the response. -/
structure Response where
  /-- Field `StatusCode`. -/
  StatusCode : Int
  /-- The bytes of the body, or the error of reading it. -/
  Body : Except Error (List UInt8)

/-- The `net/http` library and the server behind it. -/
structure Net where
  /-- Error of `http.NewRequest(method, url, nil)`. -/
  NewRequest : String → String → Option Error
  /-- Result of `http.DefaultClient.Do(req)`. -/
  Do : String → String → Except Error Response

/-- How a function that may call `log.Fatal` ends: it returns a value, or the
process exits after logging a message. -/
inductive Outcome (α : Type) where
  | returned (value : α)
  | fatal (message : String)
deriving DecidableEq, Repr

/-! ## The program -/

namespace http

/-- The constant `http.StatusOK`. -/
def StatusOK : Int := 200

end http

/-- The text of `fmt.Sprintf("Couldn't read github: response code %v\n", code)`. -/
def statusMessage (code : Int) : String :=
  "Couldn't read github: response code " ++ String.mk (json.formatInt code) ++ "\n"

/-- readData reads from a github repo issues list and returns the resulting raw
data.  The deferred `resp.Body.Close()` runs when the function returns; it does
not run when `log.Fatal` exits the process. -/
def readData (net : Net) (tr : Trace) : Outcome (List UInt8) × Trace :=
  match net.NewRequest "GET" "https://api.github.com/repos/elastic/beats/issues" with
  | some err => (Outcome.fatal err, tr)
  | none =>
    let tr1 := tr ++ [Event.HttpDo "GET" "https://api.github.com/repos/elastic/beats/issues"]
    match net.Do "GET" "https://api.github.com/repos/elastic/beats/issues" with
    | Except.error err => (Outcome.fatal err, tr1)
    | Except.ok resp =>
      if resp.StatusCode = http.StatusOK then
        match resp.Body with
        | Except.error err => (Outcome.fatal err, tr1)
        | Except.ok bodyBytes => (Outcome.returned bodyBytes, tr1 ++ [Event.BodyClose])
      else (Outcome.fatal (statusMessage resp.StatusCode), tr1)

/-- The configuration every producer is made with: the library default with four
settings assigned. -/
def saramaConfig (env : Env) : sarama.Config :=
  let config := env.NewConfig
  let config := { config with Producer := { config.Producer with
    RequiredAcks := sarama.RequiredAcks.WaitForAll } }
  let config := { config with Producer := { config.Producer with
    Return := { config.Producer.Return with Successes := true } } }
  let config := { config with Producer := { config.Producer with
    Partitioner := sarama.PartitionerConstructor.NewHashPartitioner } }
  let config := { config with Version := sarama.V1_0_0_0 }
  config

set_option linter.unusedVariables false in
/-- Open a producer to `host`, send one message to `topic`, close the producer.
Returns the error (`none` for nil) and the extended history.  A new producer is
named by the length of the history at the time it is made.  The deferred
`producer.Close()` runs on both returns that follow a successful open.  The
parameter `timeout` is not used by the body. -/
def writeToKafkaTopic (env : Env) (host : String) (topic : String) (message : String)
    (headers : List sarama.RecordHeader) (timeout : time.Duration) (tr : Trace) :
    Option Error × Trace :=
  let config := saramaConfig env
  let hosts := [host]
  match env.NewSyncProducer tr hosts config with
  | some err => (some err, tr ++ [Event.NewSyncProducer hosts config (Opened.failed err)])
  | none =>
    let producer := tr.length
    let tr1 := tr ++ [Event.NewSyncProducer hosts config (Opened.producer producer)]
    let msg : sarama.ProducerMessage :=
      { Topic := topic, Key := none, Value := message, Headers := headers }
    match env.SendMessage tr1 producer msg with
    | some err => (some err, tr1 ++ [Event.SendMessage producer msg (some err),
        Event.Close producer])
    | none => (none, tr1 ++ [Event.SendMessage producer msg none, Event.Close producer])

/-- The loop of `sendData` over the issues still to do: the counter `sent` and the
history, before and after. -/
def sendLoop (env : Env) (host : String) (topic : String) :
    Issues → Nat → Trace → Nat × Trace
  | [], sent, tr => (sent, tr)
  | issue :: rest, sent, tr =>
    match json.Marshal issue with
    | Except.error err => sendLoop env host topic rest sent (tr ++ [Event.LogPrint err])
    | Except.ok blob =>
      match writeToKafkaTopic env host topic blob [] (time.Second * 15) tr with
      | (some err, tr1) => sendLoop env host topic rest sent (tr1 ++ [Event.LogPrint err])
      | (none, tr1) => sendLoop env host topic rest (sent + 1) tr1

/-- The text of `fmt.Printf("%v / %v messages sent\n", sent, total)`. -/
def summary (sent total : Nat) : String :=
  String.mk (json.formatInt sent) ++ " / " ++ String.mk (json.formatInt total)
    ++ " messages sent\n"

/-- sendData interprets the given bytes as json representation of github issues
(Issues) and sends (a few test fields of) the individual issues to the target
kafka cluster / topic as kafka events containing json. -/
def sendData (env : Env) (bytes : List UInt8) (host : String) (topic : String)
    (tr : Trace) : Trace :=
  match json.Unmarshal bytes with
  | Except.error err => tr ++ [Event.Stdout (err ++ "\n")]
  | Except.ok issues =>
    let done := sendLoop env host topic issues 0 tr
    done.2 ++ [Event.Stdout (summary done.1 issues.length)]

/-- The program: both flags are required; then fetch and publish. -/
def main (net : Net) (env : Env) (host : String) (topic : String) : Outcome Unit × Trace :=
  if host = "" ∨ topic = "" then
    (Outcome.fatal
      "Host and topic must be provided.\nUsage: kafkawrite -host <host> -topic <topic>", [])
  else
    match readData net [] with
    | (Outcome.fatal message, tr) => (Outcome.fatal message, tr)
    | (Outcome.returned data, tr) => (Outcome.returned (), sendData env data host topic tr)

/-! ## Observations on a trace -/

/-- The attempts to open a producer, in order: the addresses and configuration
given and what came back. -/
def connections (tr : Trace) : List (List String × sarama.Config × Opened) :=
  tr.filterMap fun e =>
    match e with
    | Event.NewSyncProducer addrs config res => some (addrs, config, res)
    | _ => none

/-- Whether an attempt to open a producer gave one. -/
def Opened.isProducer : Opened → Bool
  | Opened.producer _ => true
  | Opened.failed _ => false

/-- The sends, in order: the producer used, the message and the broker's answer. -/
def sends (tr : Trace) : List (Nat × sarama.ProducerMessage × Option Error) :=
  tr.filterMap fun e =>
    match e with
    | Event.SendMessage producer msg err => some (producer, msg, err)
    | _ => none

/-- The payloads the broker accepted, in order. -/
def accepted (tr : Trace) : List String :=
  ((sends tr).filter (fun s => s.2.2.isNone)).map (fun s => s.2.1.Value)

/-- Whether an event is a call that reaches the broker: opening, sending,
closing. -/
def Event.isBrokerCall : Event → Bool
  | Event.NewSyncProducer _ _ _ => true
  | Event.SendMessage _ _ _ => true
  | Event.Close _ => true
  | _ => false

/-- The calls that reach the broker, in order. -/
def brokerCalls (tr : Trace) : Trace := tr.filter Event.isBrokerCall

/-- Whether an event is about the producer with the given handle. -/
def Event.onProducer (p : Nat) : Event → Bool
  | Event.NewSyncProducer _ _ (Opened.producer q) => p = q
  | Event.SendMessage q _ _ => p = q
  | Event.Close q => p = q
  | _ => false

/-- The life of one producer: the events about it, in order. -/
def lifeOf (p : Nat) (tr : Trace) : Trace := tr.filter (Event.onProducer p)

/-- The producers open after a history: opened and not closed since. -/
def stillOpen : Trace → List Nat → List Nat
  | [], live => live
  | Event.NewSyncProducer _ _ (Opened.producer p) :: tr, live => stillOpen tr (live ++ [p])
  | Event.Close p :: tr, live => stillOpen tr (live.erase p)
  | _ :: tr, live => stillOpen tr live

/-- What the program wrote to standard output, in order. -/
def stdout (tr : Trace) : List String :=
  tr.filterMap fun e =>
    match e with
    | Event.Stdout text => some text
    | _ => none

/-- The message `writeToKafkaTopic` builds for an issue. -/
def messageOf (topic : String) (issue : Issue) : sarama.ProducerMessage :=
  { Topic := topic, Key := none, Value := String.mk (json.encodeIssue issue), Headers := [] }

/-- How the handling of one record went: the producer could not be made, or it
was made and the send got the given answer. -/
inductive Attempt where
  | refused (err : Error)
  | answered (err : Option Error)
deriving DecidableEq, Repr

/-- The events of handling one record when the history has length `k`. -/
def Attempt.events (env : Env) (host topic : String) (k : Nat) (issue : Issue) :
    Attempt → Trace
  | Attempt.refused err =>
    [Event.NewSyncProducer [host] (saramaConfig env) (Opened.failed err), Event.LogPrint err]
  | Attempt.answered none =>
    [Event.NewSyncProducer [host] (saramaConfig env) (Opened.producer k),
      Event.SendMessage k (messageOf topic issue) none, Event.Close k]
  | Attempt.answered (some err) =>
    [Event.NewSyncProducer [host] (saramaConfig env) (Opened.producer k),
      Event.SendMessage k (messageOf topic issue) (some err), Event.Close k,
      Event.LogPrint err]

/-- The events of handling a batch, record by record, from a history of length
`k`. -/
def blocks (env : Env) (host topic : String) : Nat → Issues → List Attempt → Trace
  | k, issue :: issues, a :: atts =>
    a.events env host topic k issue
      ++ blocks env host topic (k + (a.events env host topic k issue).length) issues atts
  | _, _, _ => []

/-- Number of records delivered. -/
def delivered (atts : List Attempt) : Nat := atts.count (Attempt.answered none)

/-- An attempt agrees with the environment when some history makes the oracle for
opening a producer answer the way the attempt says. -/
def Attempt.possible (env : Env) (host : String) : Attempt → Prop
  | Attempt.refused err => ∃ h, env.NewSyncProducer h [host] (saramaConfig env) = some err
  | Attempt.answered _ => ∃ h, env.NewSyncProducer h [host] (saramaConfig env) = none

/-- What an attempt to handle a record leaves in the list of connections. -/
def Attempt.opened (k : Nat) : Attempt → Opened
  | Attempt.refused err => Opened.failed err
  | Attempt.answered _ => Opened.producer k

/-- The handle an attempt to open a producer gave, if it gave one. -/
def Opened.handle : Opened → Option Nat
  | Opened.producer p => some p
  | Opened.failed _ => none

/-! ## Definitions used to state the properties of the JSON codec -/

namespace json

/-- The value an encoded issue parses to: an object of four members. -/
def issueValue (issue : Issue) : Value :=
  Value.object
    [(['i', 'd'], Value.number (formatInt issue.ID)),
     (['t', 'i', 't', 'l', 'e'], Value.string issue.Title.data),
     (['s', 't', 'a', 't', 'e'], Value.string issue.State.data),
     (['b', 'o', 'd', 'y'], Value.string issue.Body.data)]

/-- An `ID` that a Go `int` of 64 bits can hold. -/
def fitsInt (issue : Issue) : Prop :=
  -(2 : Int) ^ 63 ≤ issue.ID ∧ issue.ID < (2 : Int) ^ 63

end json

/-! ## Sample environments and inputs -/

/-- The value of `sarama.NewConfig()`, for the settings modelled: the defaults
the library documents. -/
def sarama.NewConfig : sarama.Config :=
  { Net := { DialTimeout := 30 * time.Second, ReadTimeout := 30 * time.Second,
             WriteTimeout := 30 * time.Second, TLSEnable := false, SASLEnable := false },
    Producer := { MaxMessageBytes := 1000000,
                  RequiredAcks := sarama.RequiredAcks.WaitForLocal,
                  Timeout := 10 * time.Second,
                  Compression := sarama.CompressionCodec.CompressionNone,
                  Partitioner := sarama.PartitionerConstructor.NewHashPartitioner,
                  Return := { Successes := false, Errors := true },
                  RetryMax := 3 },
    ClientID := "sarama",
    Version := ⟨(0, 8, 2, 0)⟩ }

/-- A broker that opens every producer and accepts every message. -/
def acceptAll : Env :=
  { NewConfig := sarama.NewConfig
    NewSyncProducer := fun _ _ _ => none
    SendMessage := fun _ _ _ => none }

/-- A broker that rejects the second send of a run and accepts the others. -/
def rejectSecond : Env :=
  { NewConfig := sarama.NewConfig
    NewSyncProducer := fun _ _ _ => none
    SendMessage := fun tr _ _ =>
      if (sends tr).length = 1 then some "kafka server: message rejected" else none }

/-- A broker that cannot be reached at all. -/
def refuseAll : Env :=
  { NewConfig := sarama.NewConfig
    NewSyncProducer := fun _ _ _ => some "kafka: client has run out of available brokers"
    SendMessage := fun _ _ _ => none }

/-- A broker that cannot be reached the first time and works from then on. -/
def refuseFirst : Env :=
  { NewConfig := sarama.NewConfig
    NewSyncProducer := fun tr _ _ =>
      if (connections tr).length = 0 then some "kafka: client has run out of available brokers"
      else none
    SendMessage := fun _ _ _ => none }

/-- The bytes of an ASCII text. -/
def ascii (text : String) : List UInt8 := text.data.map (fun c => UInt8.ofNat c.toNat)

/-- A list of one issue. -/
def oneIssue : List UInt8 :=
  ascii "[\x7b\"id\":1,\"title\":\"a\",\"state\":\"open\",\"body\":\"x\"\x7d]"

/-- A list of three issues, with a member the decoder skips. -/
def threeIssues : List UInt8 :=
  ascii "[\x7b\"id\":1,\"title\":\"a\"\x7d, \x7b\"id\":2,\"url\":null\x7d, \x7b\"id\":3,\"body\":\"z\"\x7d]"

/-- The empty list. -/
def noIssues : List UInt8 := ascii "[]"

/-- A buffer that is not JSON. -/
def notJson : List UInt8 := ascii "<html>"

/-- A server that answers the one request with the given status and body. -/
def github (code : Int) (body : Except Error (List UInt8)) : Net :=
  { NewRequest := fun _ _ => none
    Do := fun _ _ => Except.ok { StatusCode := code, Body := body } }

/-! ## The JSON codec: an encoded issue decodes to itself -/

namespace json

theorem unquoteFrom_skip (pre tail : List Char) :
    unquoteFrom pre.length (pre ++ tail) = unquoteFrom 0 tail := by
  induction pre with
  | nil => rfl
  | cons x pre ih => simpa [unquoteFrom] using ih

set_option maxRecDepth 100000 in
theorem getu4_hexDigit : ∀ n, n < 256 →
    getu4 '0' '0' (hexDigit (n / 16)) (hexDigit (n % 16)) = some n := by
  decide

theorem unquoteRune_u00 (c : Char) (hc : c.toNat < 256) (tail : List Char) :
    unquoteRune ('\\' :: 'u' :: '0' :: '0' :: hexDigit (c.toNat / 16)
      :: hexDigit (c.toNat % 16) :: tail) = some (c, 6) := by
  have h := getu4_hexDigit c.toNat hc
  have hlow : ¬ (0xD800 ≤ c.toNat ∧ c.toNat < 0xE000) := by omega
  simp [unquoteRune, h, hlow]

theorem unquoteRune_escapeRune (c : Char) (tail : List Char) :
    unquoteRune (escapeRune c ++ tail) = some (c, (escapeRune c).length) := by
  unfold escapeRune
  split_ifs with h1 h2 h3 h4 h5 h6 h7
  · subst h1; simp [unquoteRune, simpleEscape]
  · subst h2; simp [unquoteRune, simpleEscape]
  · subst h3; simp [unquoteRune, simpleEscape]
  · subst h4; simp [unquoteRune, simpleEscape]
  · subst h5; simp [unquoteRune, simpleEscape]
  · have hc : c.toNat < 256 := by
      rcases h6 with h | h | h | h
      · omega
      · subst h; decide
      · subst h; decide
      · subst h; decide
    simpa using unquoteRune_u00 c hc tail
  · rcases h7 with h | h
    · subst h
      have hg : getu4 '2' '0' '2' (hexDigit 8) = some 0x2028 := by
        decide
      simp [unquoteRune, hg]
    · subst h
      have hg : getu4 '2' '0' '2' (hexDigit 9) = some 0x2029 := by
        decide
      simp [unquoteRune, hg]
  · have h6' : ¬ c.toNat < 0x20 := fun h => h6 (Or.inl h)
    simp [unquoteRune, h2, h6']

theorem escapeRune_head (c : Char) :
    ∃ h t, escapeRune c = h :: t ∧ h ≠ '"' := by
  unfold escapeRune
  split_ifs with h1 h2 h3 h4 h5 h6 h7
  all_goals first
    | exact ⟨'\\', _, rfl, by decide⟩
    | exact ⟨c, [], rfl, h1⟩

theorem unquoteFrom_escape (s rest : List Char) :
    unquoteFrom 0 (escape s ++ '"' :: rest) = some (s, rest) := by
  induction s with
  | nil => simp [escape, unquoteFrom]
  | cons c cs ih =>
    obtain ⟨h, t, hesc, hq⟩ := escapeRune_head c
    have hrune := unquoteRune_escapeRune c (escape cs ++ '"' :: rest)
    have hskip := unquoteFrom_skip t (escape cs ++ '"' :: rest)
    rw [hesc] at hrune
    simp only [escape, hesc, List.cons_append, List.append_assoc]
    simp only [List.cons_append, List.length_cons] at hrune
    simp only [unquoteFrom, hq, if_false, hrune, Nat.add_sub_cancel, hskip, ih]

set_option maxRecDepth 100000 in
theorem digit_facts : ∀ d, d < 10 →
    ('0' ≤ Char.ofNat (48 + d) ∧ Char.ofNat (48 + d) ≤ '9')
      ∧ (Char.ofNat (48 + d)).toNat - 48 = d
      ∧ (0 < d → '1' ≤ Char.ofNat (48 + d)) := by
  decide

theorem takeDigits_append (ds : List Char) (c0 : Char) (rest : List Char)
    (hds : ∀ c ∈ ds, '0' ≤ c ∧ c ≤ '9') (hc0 : ¬ ('0' ≤ c0 ∧ c0 ≤ '9')) :
    takeDigits (ds ++ c0 :: rest) = (ds, c0 :: rest) := by
  induction ds with
  | nil => simp [takeDigits, hc0]
  | cons d ds ih =>
    have hd := hds d (List.mem_cons_self _ _)
    have hrec := ih (fun c hc => hds c (List.mem_cons_of_mem _ hc))
    simp [takeDigits, hd, hrec]

theorem decimal_append (xs ys : List Char) :
    ∀ acc, decimal (xs ++ ys) acc = (decimal xs acc).bind (decimal ys) := by
  induction xs with
  | nil => intro acc; rfl
  | cons x xs ih =>
    intro acc
    by_cases hx : '0' ≤ x ∧ x ≤ '9'
    · simp [decimal, hx, ih]
    · simp [decimal, hx]

theorem digitsFuel_shape : ∀ (f n : Nat), n < f →
    ∃ h t, digitsFuel f n = h :: t ∧ ('0' ≤ h ∧ h ≤ '9') ∧ (∀ c ∈ t, '0' ≤ c ∧ c ≤ '9')
      ∧ ((n = 0 ∧ h = '0' ∧ t = []) ∨ (0 < n ∧ '1' ≤ h)) := by
  intro f
  induction f with
  | zero => intro n hn; omega
  | succ f ih =>
    intro n hn
    by_cases h10 : n < 10
    · have hd := digit_facts n h10
      refine ⟨Char.ofNat (48 + n), [], by simp [digitsFuel, h10], hd.1, by simp, ?_⟩
      rcases Nat.eq_zero_or_pos n with h0 | h0
      · subst h0; exact Or.inl ⟨rfl, rfl, rfl⟩
      · exact Or.inr ⟨h0, hd.2.2 h0⟩
    · obtain ⟨h, t, hrec, hh, ht, hcase⟩ := ih (n / 10) (by omega)
      have hd := digit_facts (n % 10) (Nat.mod_lt _ (by omega))
      refine ⟨h, t ++ [Char.ofNat (48 + n % 10)], by simp [digitsFuel, h10, hrec], hh, ?_, ?_⟩
      · intro c hc
        rcases List.mem_append.mp hc with hc | hc
        · exact ht c hc
        · rw [List.mem_singleton.mp hc]; exact hd.1
      · rcases hcase with ⟨h0, _, _⟩ | ⟨_, h1⟩
        · omega
        · exact Or.inr ⟨by omega, h1⟩

theorem decimal_digitsFuel : ∀ (f n : Nat), n < f → decimal (digitsFuel f n) 0 = some n := by
  intro f
  induction f with
  | zero => intro n hn; omega
  | succ f ih =>
    intro n hn
    by_cases h10 : n < 10
    · have hd := digit_facts n h10
      simp [digitsFuel, h10, decimal, hd.1, hd.2.1]
    · have hd := digit_facts (n % 10) (Nat.mod_lt _ (by omega))
      have hrec := ih (n / 10) (by omega)
      simp only [digitsFuel, h10, if_false, decimal_append, hrec, Option.some_bind, decimal,
        hd.1, and_self, if_true, hd.2.1]
      congr 1
      omega

theorem scanTail_comma (rest : List Char) :
    scanFrac (',' :: rest) = some ([], ',' :: rest)
      ∧ scanExp (',' :: rest) = some ([], ',' :: rest) := by
  constructor
  · simp [scanFrac]
  · simp [scanExp]

theorem scanInt_digits (f n : Nat) (hn : n < f) (rest : List Char) :
    scanInt (digitsFuel f n ++ ',' :: rest) = some (digitsFuel f n, ',' :: rest) := by
  obtain ⟨h, t, hshape, hh, ht, hcase⟩ := digitsFuel_shape f n hn
  rw [hshape]
  rcases hcase with ⟨_, h0, ht0⟩ | ⟨_, h1⟩
  · subst h0; subst ht0; simp [scanInt]
  · have hne : h ≠ '0' := by
      intro h0; subst h0; exact absurd h1 (by decide)
    have htake := takeDigits_append t ',' rest ht (by decide)
    simp [scanInt, hne, h1, hh.2, htake]

theorem digits_head_ne_minus (f n : Nat) (hn : n < f) :
    ∃ h t, digitsFuel f n = h :: t ∧ h ≠ '-' := by
  obtain ⟨h, t, hshape, hh, _, _⟩ := digitsFuel_shape f n hn
  refine ⟨h, t, hshape, ?_⟩
  intro hm; subst hm; exact absurd hh.1 (by decide)

theorem scanNumber_formatInt (n : Int) (rest : List Char) :
    scanNumber (formatInt n ++ ',' :: rest) = some (formatInt n, ',' :: rest) := by
  have hscan := scanInt_digits (n.natAbs + 1) n.natAbs (Nat.lt_succ_self _) rest
  obtain ⟨hfrac, hexp⟩ := scanTail_comma rest
  unfold formatInt
  split_ifs with hneg
  · simp [scanNumber, hscan, hfrac, hexp]
  · obtain ⟨h, t, hshape, hm⟩ := digits_head_ne_minus (n.natAbs + 1) n.natAbs (Nat.lt_succ_self _)
    rw [hshape] at hscan ⊢
    simp only [List.cons_append] at hscan ⊢
    simp [scanNumber, hm, hscan, hfrac, hexp]

theorem parseInt_formatInt (n : Int) (hlo : -(2 : Int) ^ 63 ≤ n) (hhi : n < (2 : Int) ^ 63) :
    parseInt (formatInt n) = some n := by
  have hdec := decimal_digitsFuel (n.natAbs + 1) n.natAbs (Nat.lt_succ_self _)
  unfold formatInt
  split_ifs with hneg
  · obtain ⟨h, t, hshape, _⟩ := digits_head_ne_minus (n.natAbs + 1) n.natAbs (Nat.lt_succ_self _)
    have hne : digitsFuel (n.natAbs + 1) n.natAbs ≠ [] := by rw [hshape]; simp
    have hle : n.natAbs ≤ 2 ^ 63 := by omega
    simp only [parseInt, if_true, hne, if_false, hdec, hle]
    congr 1
    omega
  · obtain ⟨h, t, hshape, hm⟩ := digits_head_ne_minus (n.natAbs + 1) n.natAbs (Nat.lt_succ_self _)
    rw [hshape] at hdec ⊢
    have hlt : n.natAbs < 2 ^ 63 := by omega
    simp only [parseInt, hm, if_false, hdec, hlt, if_true]
    congr 1
    omega

theorem skipSpace_cons (c : Char) (cs : List Char) (hc : isSpace c = false) :
    skipSpace (c :: cs) = c :: cs := by
  simp [skipSpace, hc]

theorem parseValue_string (f : Nat) (s rest : List Char) :
    parseValue (f + 1) ('"' :: (escape s ++ '"' :: rest)) = some (Value.string s, rest) := by
  have hsp : skipSpace ('"' :: (escape s ++ '"' :: rest)) = '"' :: (escape s ++ '"' :: rest) :=
    skipSpace_cons _ _ (by decide)
  simp [parseValue, hsp, unquoteFrom_escape]

theorem formatInt_head (n : Int) :
    ∃ h t, formatInt n = h :: t ∧ isSpace h = false ∧ h ≠ '{' ∧ h ≠ '[' ∧ h ≠ '"'
      ∧ h ≠ 't' ∧ h ≠ 'f' ∧ h ≠ 'n' := by
  unfold formatInt
  split_ifs with hneg
  · exact ⟨'-', _, rfl, by decide, by decide, by decide, by decide, by decide, by decide,
      by decide⟩
  · obtain ⟨h, t, hshape, hh, _, _⟩ :=
      digitsFuel_shape (n.natAbs + 1) n.natAbs (Nat.lt_succ_self _)
    have hne : ∀ c : Char, ¬ ('0' ≤ c ∧ c ≤ '9') → h ≠ c := by
      intro c hc hhc; subst hhc; exact hc hh
    refine ⟨h, t, hshape, ?_, hne _ (by decide), hne _ (by decide), hne _ (by decide),
      hne _ (by decide), hne _ (by decide), hne _ (by decide)⟩
    have h1 := hne ' ' (by decide)
    have h2 := hne '\t' (by decide)
    have h3 := hne '\r' (by decide)
    have h4 := hne '\n' (by decide)
    simp [isSpace, h1, h2, h3, h4]

theorem parseValue_number (f : Nat) (n : Int) (rest : List Char) :
    parseValue (f + 1) (formatInt n ++ ',' :: rest)
      = some (Value.number (formatInt n), ',' :: rest) := by
  have hscan := scanNumber_formatInt n rest
  obtain ⟨h, t, hshape, hsp, h1, h2, h3, h4, h5, h6⟩ := formatInt_head n
  rw [hshape] at hscan ⊢
  simp only [List.cons_append] at hscan ⊢
  simp [parseValue, skipSpace_cons _ _ hsp, h1, h2, h3, h4, h5, h6, hscan]

theorem unquoteFrom_plain (key rest : List Char) (hkey : escape key = key) :
    unquoteFrom 0 (key ++ '"' :: rest) = some (key, rest) := by
  have h := unquoteFrom_escape key rest
  rwa [hkey] at h

theorem parseMembers_string_more (f : Nat) (key s more : List Char)
    (hkey : escape key = key) (kvs : List (List Char × Value)) (r : List Char)
    (hmore : parseMembers (f + 1) more = some (kvs, r)) :
    parseMembers (f + 2) ('"' :: (key ++ '"' :: ':' :: '"' :: (escape s ++ '"' :: ',' :: more)))
      = some ((key, Value.string s) :: kvs, r) := by
  have hq : skipSpace ('"' :: (key ++ '"' :: ':' :: '"' :: (escape s ++ '"' :: ',' :: more)))
      = '"' :: (key ++ '"' :: ':' :: '"' :: (escape s ++ '"' :: ',' :: more)) :=
    skipSpace_cons _ _ (by decide)
  have hcolon : skipSpace (':' :: '"' :: (escape s ++ '"' :: ',' :: more))
      = ':' :: '"' :: (escape s ++ '"' :: ',' :: more) := skipSpace_cons _ _ (by decide)
  have hcomma : skipSpace (',' :: more) = ',' :: more := skipSpace_cons _ _ (by decide)
  rw [parseMembers]
  simp only [hq, if_true, unquoteFrom_plain key _ hkey, hcolon, parseValue_string, hcomma, hmore]

theorem parseMembers_string_last (f : Nat) (key s rest : List Char)
    (hkey : escape key = key) :
    parseMembers (f + 2) ('"' :: (key ++ '"' :: ':' :: '"' :: (escape s ++ '"' :: '}' :: rest)))
      = some ([(key, Value.string s)], rest) := by
  have hq : skipSpace ('"' :: (key ++ '"' :: ':' :: '"' :: (escape s ++ '"' :: '}' :: rest)))
      = '"' :: (key ++ '"' :: ':' :: '"' :: (escape s ++ '"' :: '}' :: rest)) :=
    skipSpace_cons _ _ (by decide)
  have hcolon : skipSpace (':' :: '"' :: (escape s ++ '"' :: '}' :: rest))
      = ':' :: '"' :: (escape s ++ '"' :: '}' :: rest) := skipSpace_cons _ _ (by decide)
  have hbrace : skipSpace ('}' :: rest) = '}' :: rest := skipSpace_cons _ _ (by decide)
  have hne : ('}' : Char) ≠ ',' := by decide
  rw [parseMembers]
  simp only [hq, if_true, unquoteFrom_plain key _ hkey, hcolon, parseValue_string, hbrace,
    hne, if_false]

theorem parseMembers_number_more (f : Nat) (key : List Char) (n : Int) (more : List Char)
    (hkey : escape key = key) (kvs : List (List Char × Value)) (r : List Char)
    (hmore : parseMembers (f + 1) more = some (kvs, r)) :
    parseMembers (f + 2) ('"' :: (key ++ '"' :: ':' :: (formatInt n ++ ',' :: more)))
      = some ((key, Value.number (formatInt n)) :: kvs, r) := by
  have hq : skipSpace ('"' :: (key ++ '"' :: ':' :: (formatInt n ++ ',' :: more)))
      = '"' :: (key ++ '"' :: ':' :: (formatInt n ++ ',' :: more)) :=
    skipSpace_cons _ _ (by decide)
  have hcolon : skipSpace (':' :: (formatInt n ++ ',' :: more))
      = ':' :: (formatInt n ++ ',' :: more) := skipSpace_cons _ _ (by decide)
  have hcomma : skipSpace (',' :: more) = ',' :: more := skipSpace_cons _ _ (by decide)
  rw [parseMembers]
  simp only [hq, if_true, unquoteFrom_plain key _ hkey, hcolon, parseValue_number, hcomma, hmore]

theorem encodeIssue_eq (issue : Issue) :
    encodeIssue issue
      = '{' :: '"' :: (['i', 'd'] ++ '"' :: ':' :: (formatInt issue.ID ++ ',' ::
          '"' :: (['t', 'i', 't', 'l', 'e'] ++ '"' :: ':' :: '"' ::
            (escape issue.Title.data ++ '"' :: ',' ::
          '"' :: (['s', 't', 'a', 't', 'e'] ++ '"' :: ':' :: '"' ::
            (escape issue.State.data ++ '"' :: ',' ::
          '"' :: (['b', 'o', 'd', 'y'] ++ '"' :: ':' :: '"' ::
            (escape issue.Body.data ++ '"' :: '}' :: []))))))))  := by
  simp [encodeIssue, quote]

theorem parseValue_encodeIssue (f : Nat) (issue : Issue) :
    parseValue (f + 6) (encodeIssue issue) = some (issueValue issue, []) := by
  have hbody := parseMembers_string_last f ['b', 'o', 'd', 'y'] issue.Body.data []
    (by decide)
  have hstate := parseMembers_string_more (f + 1) ['s', 't', 'a', 't', 'e'] issue.State.data _
    (by decide) _ _ hbody
  have htitle := parseMembers_string_more (f + 2) ['t', 'i', 't', 'l', 'e'] issue.Title.data _
    (by decide) _ _ hstate
  have hid := parseMembers_number_more (f + 3) ['i', 'd'] issue.ID _ (by decide) _ _ htitle
  rw [encodeIssue_eq, parseValue]
  have h1 : ∀ cs, skipSpace ('{' :: cs) = '{' :: cs := fun cs => skipSpace_cons _ _ (by decide)
  have h2 : ∀ cs, skipSpace ('"' :: cs) = '"' :: cs := fun cs => skipSpace_cons _ _ (by decide)
  have hne : ('"' : Char) ≠ '}' := by decide
  have hid5 : parseMembers (f + 5) _ = _ := hid
  simp only [h1, h2, if_true, hne, if_false, hid5, issueValue]

theorem encodeIssue_length (issue : Issue) : 2 ≤ (encodeIssue issue).length := by
  rw [encodeIssue_eq]; simp

theorem parseDocument_encodeIssue (issue : Issue) :
    parseDocument (encodeIssue issue) = some (issueValue issue) := by
  have hlen := encodeIssue_length issue
  have hfuel : 2 * (encodeIssue issue).length + 2 = (2 * (encodeIssue issue).length - 4) + 6 := by
    omega
  simp only [parseDocument, hfuel, parseValue_encodeIssue, skipSpace, if_true]

theorem decodeIssue_issueValue (issue : Issue)
    (hlo : -(2 : Int) ^ 63 ≤ issue.ID) (hhi : issue.ID < (2 : Int) ^ 63) :
    decodeIssue (issueValue issue) = some issue := by
  have hint := parseInt_formatInt issue.ID hlo hhi
  have e1 : equalFold ['i', 'd'] ['i', 'd'] = true := by decide
  have e2 : equalFold ['t', 'i', 't', 'l', 'e'] ['i', 'd'] = false := by decide
  have e3 : equalFold ['t', 'i', 't', 'l', 'e'] ['t', 'i', 't', 'l', 'e'] = true := by decide
  have e4 : equalFold ['s', 't', 'a', 't', 'e'] ['i', 'd'] = false := by decide
  have e5 : equalFold ['s', 't', 'a', 't', 'e'] ['t', 'i', 't', 'l', 'e'] = false := by decide
  have e6 : equalFold ['s', 't', 'a', 't', 'e'] ['s', 't', 'a', 't', 'e'] = true := by decide
  have e7 : equalFold ['b', 'o', 'd', 'y'] ['i', 'd'] = false := by decide
  have e8 : equalFold ['b', 'o', 'd', 'y'] ['t', 'i', 't', 'l', 'e'] = false := by decide
  have e9 : equalFold ['b', 'o', 'd', 'y'] ['s', 't', 'a', 't', 'e'] = false := by decide
  have e10 : equalFold ['b', 'o', 'd', 'y'] ['b', 'o', 'd', 'y'] = true := by decide
  simp [issueValue, decodeIssue, storeMembers, storeField, storeID, storeString, e1, e2, e3, e4, e5, e6, e7, e8, e9,
    e10, hint, Issue.zero]

theorem UnmarshalIssue_Marshal (issue : Issue) (hr : fitsInt issue) :
    UnmarshalIssue (String.mk (encodeIssue issue)) = Except.ok issue := by
  simp only [UnmarshalIssue, parseDocument_encodeIssue, decodeIssue_issueValue issue hr.1 hr.2]

theorem parseInt_fits (lit : List Char) (n : Int) (h : parseInt lit = some n) :
    -(2 : Int) ^ 63 ≤ n ∧ n < (2 : Int) ^ 63 := by
  cases lit with
  | nil => simp [parseInt] at h
  | cons c cs =>
    simp only [parseInt] at h
    split_ifs at h with hminus hnil
    · cases hd : decimal cs 0 with
      | none => simp [hd] at h
      | some m =>
        simp only [hd] at h
        split_ifs at h with hm
        cases h
        constructor <;> omega
    · cases hd : decimal (c :: cs) 0 with
      | none => simp [hd] at h
      | some m =>
        simp only [hd] at h
        split_ifs at h with hm
        cases h
        constructor <;> omega

theorem storeID_fits (issue issue1 : Issue) (v : Value) (hfit : fitsInt issue)
    (h : storeID issue v = some issue1) : fitsInt issue1 := by
  cases v with
  | null => simp [storeID] at h; subst h; exact hfit
  | number lit =>
    simp only [storeID] at h
    cases hp : parseInt lit with
    | none => simp [hp] at h
    | some n =>
      simp only [hp, Option.some.injEq] at h
      subst h
      exact parseInt_fits lit n hp
  | bool b => simp [storeID] at h
  | string str => simp [storeID] at h
  | array xs => simp [storeID] at h
  | object kvs => simp [storeID] at h

theorem storeString_fits (issue issue1 : Issue) (set : Issue → String → Issue) (v : Value)
    (hset : ∀ i str, (set i str).ID = i.ID) (hfit : fitsInt issue)
    (h : storeString issue set v = some issue1) : fitsInt issue1 := by
  cases v with
  | null => simp [storeString] at h; subst h; exact hfit
  | string str =>
    simp only [storeString, Option.some.injEq] at h
    subst h
    unfold fitsInt
    rw [hset]
    exact hfit
  | bool b => simp [storeString] at h
  | number lit => simp [storeString] at h
  | array xs => simp [storeString] at h
  | object kvs => simp [storeString] at h

theorem storeField_fits (issue issue1 : Issue) (key : List Char) (v : Value)
    (hfit : fitsInt issue) (h : storeField issue key v = some issue1) : fitsInt issue1 := by
  unfold storeField at h
  split_ifs at h
  · exact storeID_fits issue issue1 v hfit h
  · refine storeString_fits issue issue1 _ v ?_ hfit h
    intro i str; rfl
  · refine storeString_fits issue issue1 _ v ?_ hfit h
    intro i str; rfl
  · refine storeString_fits issue issue1 _ v ?_ hfit h
    intro i str; rfl
  · cases h; exact hfit

theorem storeMembers_fits (kvs : List (List Char × Value)) :
    ∀ (issue issue1 : Issue), fitsInt issue → storeMembers issue kvs = some issue1 →
      fitsInt issue1 := by
  induction kvs with
  | nil => intro issue issue1 hfit h; simp [storeMembers] at h; subst h; exact hfit
  | cons kv kvs ih =>
    intro issue issue1 hfit h
    obtain ⟨key, v⟩ := kv
    simp only [storeMembers] at h
    cases hs : storeField issue key v with
    | none => simp [hs] at h
    | some issue2 =>
      simp only [hs] at h
      exact ih issue2 issue1 (storeField_fits issue issue2 key v hfit hs) h

theorem zero_fits : fitsInt Issue.zero := by
  unfold fitsInt Issue.zero
  constructor <;> simp

theorem decodeIssue_fits (v : Value) (issue : Issue) (h : decodeIssue v = some issue) :
    fitsInt issue := by
  cases v with
  | null => simp [decodeIssue] at h; subst h; exact zero_fits
  | object kvs => exact storeMembers_fits kvs Issue.zero issue zero_fits h
  | bool b => simp [decodeIssue] at h
  | number lit => simp [decodeIssue] at h
  | string str => simp [decodeIssue] at h
  | array xs => simp [decodeIssue] at h

theorem decodeElements_fits (vs : List Value) :
    ∀ issues, decodeElements vs = some issues → ∀ issue ∈ issues, fitsInt issue := by
  induction vs with
  | nil => intro issues h issue hi; simp [decodeElements] at h; subst h; simp at hi
  | cons v vs ih =>
    intro issues h issue hi
    simp only [decodeElements] at h
    cases hv : decodeIssue v with
    | none => simp [hv] at h
    | some first =>
      cases hrest : decodeElements vs with
      | none => simp [hv, hrest] at h
      | some rest =>
        simp only [hv, hrest, Option.some.injEq] at h
        subst h
        rcases List.mem_cons.mp hi with rfl | hi
        · exact decodeIssue_fits v _ hv
        · exact ih rest hrest issue hi

theorem Unmarshal_fits (bytes : List UInt8) (issues : Issues)
    (h : Unmarshal bytes = Except.ok issues) : ∀ issue ∈ issues, fitsInt issue := by
  unfold Unmarshal at h
  cases hdoc : parseDocument (utf8.decode bytes) with
  | none => simp [hdoc] at h
  | some v =>
    simp only [hdoc] at h
    cases hdec : decodeIssues v with
    | none => simp [hdec] at h
    | some decoded =>
      simp only [hdec, Except.ok.injEq] at h
      subst h
      cases v with
      | null => simp [decodeIssues] at hdec; subst hdec; intro issue hi; simp at hi
      | array vs => exact decodeElements_fits vs decoded hdec
      | bool b => simp [decodeIssues] at hdec
      | number lit => simp [decodeIssues] at hdec
      | string str => simp [decodeIssues] at hdec
      | object kvs => simp [decodeIssues] at hdec

end json

/-! ## The shape of a run -/

theorem sendLoop_blocks (env : Env) (host topic : String) (issues : Issues) :
    ∀ (sent : Nat) (tr : Trace), ∃ atts : List Attempt, atts.length = issues.length ∧
      (∀ a ∈ atts, a.possible env host) ∧
      sendLoop env host topic issues sent tr
        = (sent + delivered atts, tr ++ blocks env host topic tr.length issues atts) := by
  induction issues with
  | nil => intro sent tr; exact ⟨[], rfl, by simp, by simp [sendLoop, delivered, blocks]⟩
  | cons issue rest ih =>
    intro sent tr
    simp only [sendLoop, json.Marshal, writeToKafkaTopic]
    cases hopen : env.NewSyncProducer tr [host] (saramaConfig env) with
    | some err =>
      obtain ⟨atts, hlen, hposs, hrun⟩ := ih sent
        ((tr ++ [Event.NewSyncProducer [host] (saramaConfig env) (Opened.failed err)])
          ++ [Event.LogPrint err])
      refine ⟨Attempt.refused err :: atts, by simp [hlen], ?_, ?_⟩
      · intro a ha
        rcases List.mem_cons.mp ha with rfl | ha
        · exact ⟨tr, hopen⟩
        · exact hposs a ha
      · simp only [hrun]
        simp [delivered, blocks, Attempt.events, Nat.add_assoc]
    | none =>
      simp only []
      cases hsend : env.SendMessage
          (tr ++ [Event.NewSyncProducer [host] (saramaConfig env) (Opened.producer tr.length)])
          tr.length
          { Topic := topic, Key := none, Value := String.mk (json.encodeIssue issue),
            Headers := [] } with
      | some err =>
        obtain ⟨atts, hlen, hposs, hrun⟩ := ih sent
          (((tr ++ [Event.NewSyncProducer [host] (saramaConfig env) (Opened.producer tr.length)])
            ++ [Event.SendMessage tr.length (messageOf topic issue) (some err),
              Event.Close tr.length]) ++ [Event.LogPrint err])
        refine ⟨Attempt.answered (some err) :: atts, by simp [hlen], ?_, ?_⟩
        · intro a ha
          rcases List.mem_cons.mp ha with rfl | ha
          · exact ⟨tr, hopen⟩
          · exact hposs a ha
        · simp only [messageOf] at hrun
          simp only [hrun]
          simp [delivered, blocks, Attempt.events, messageOf, Nat.add_assoc]
      | none =>
        obtain ⟨atts, hlen, hposs, hrun⟩ := ih (sent + 1)
          ((tr ++ [Event.NewSyncProducer [host] (saramaConfig env) (Opened.producer tr.length)])
            ++ [Event.SendMessage tr.length (messageOf topic issue) none,
              Event.Close tr.length])
        refine ⟨Attempt.answered none :: atts, by simp [hlen], ?_, ?_⟩
        · intro a ha
          rcases List.mem_cons.mp ha with rfl | ha
          · exact ⟨tr, hopen⟩
          · exact hposs a ha
        · simp only [messageOf] at hrun
          simp only [hrun]
          simp [delivered, blocks, Attempt.events, messageOf, Nat.add_assoc]
          omega

theorem blocks_cons (env : Env) (host topic : String) (k : Nat) (issue : Issue)
    (issues : Issues) (a : Attempt) (atts : List Attempt) :
    blocks env host topic k (issue :: issues) (a :: atts)
      = a.events env host topic k issue
        ++ blocks env host topic (k + (a.events env host topic k issue).length) issues atts :=
  rfl

theorem stdout_append (a b : Trace) : stdout (a ++ b) = stdout a ++ stdout b := by
  simp [stdout, List.filterMap_append]

theorem connections_append (a b : Trace) :
    connections (a ++ b) = connections a ++ connections b := by
  simp [connections, List.filterMap_append]

theorem sends_append (a b : Trace) : sends (a ++ b) = sends a ++ sends b := by
  simp [sends, List.filterMap_append]

theorem accepted_append (a b : Trace) : accepted (a ++ b) = accepted a ++ accepted b := by
  simp [accepted, sends_append]

theorem brokerCalls_append (a b : Trace) :
    brokerCalls (a ++ b) = brokerCalls a ++ brokerCalls b := by
  simp [brokerCalls]

theorem lifeOf_append (p : Nat) (a b : Trace) :
    lifeOf p (a ++ b) = lifeOf p a ++ lifeOf p b := by
  simp [lifeOf]

theorem stillOpen_append (a b : Trace) :
    ∀ live : List Nat, stillOpen (a ++ b) live = stillOpen b (stillOpen a live) := by
  induction a with
  | nil => intro live; rfl
  | cons e a ih =>
    intro live
    cases e with
    | NewSyncProducer addrs config res =>
      cases res with
      | producer p => simpa [stillOpen] using ih _
      | failed err => simpa [stillOpen] using ih _
    | HttpDo method url => simpa [stillOpen] using ih _
    | BodyClose => simpa [stillOpen] using ih _
    | SendMessage q msg err => simpa [stillOpen] using ih _
    | Close q => simpa [stillOpen] using ih _
    | Stdout text => simpa [stillOpen] using ih _
    | LogPrint text => simpa [stillOpen] using ih _

theorem stdout_events (env : Env) (host topic : String) (k : Nat) (issue : Issue)
    (a : Attempt) : stdout (a.events env host topic k issue) = [] := by
  rcases a with err | _ | err <;> rfl

theorem stdout_blocks (env : Env) (host topic : String) (issues : Issues) :
    ∀ (k : Nat) (atts : List Attempt), stdout (blocks env host topic k issues atts) = [] := by
  induction issues with
  | nil => intro k atts; rfl
  | cons issue rest ih =>
    intro k atts
    cases atts with
    | nil => rfl
    | cons a atts => rw [blocks_cons, stdout_append, stdout_events, ih]; rfl

theorem connections_events (env : Env) (host topic : String) (k : Nat) (issue : Issue)
    (a : Attempt) :
    connections (a.events env host topic k issue) = [([host], saramaConfig env, a.opened k)] := by
  rcases a with err | _ | err <;> rfl

theorem connections_blocks_length (env : Env) (host topic : String) (issues : Issues) :
    ∀ (k : Nat) (atts : List Attempt), atts.length = issues.length →
      (connections (blocks env host topic k issues atts)).length = issues.length := by
  induction issues with
  | nil => intro k atts _; rfl
  | cons issue rest ih =>
    intro k atts hlen
    cases atts with
    | nil => simp at hlen
    | cons a atts =>
      rw [blocks_cons, connections_append, connections_events, List.length_append,
        ih _ atts (by simpa using hlen)]
      simp [Nat.add_comm]

theorem connections_blocks_mem (env : Env) (host topic : String) (issues : Issues) :
    ∀ (k : Nat) (atts : List Attempt),
      ∀ c ∈ connections (blocks env host topic k issues atts),
        c.1 = [host] ∧ c.2.1 = saramaConfig env := by
  induction issues with
  | nil => intro k atts c hc; simp [blocks, connections] at hc
  | cons issue rest ih =>
    intro k atts c hc
    cases atts with
    | nil => simp [blocks, connections] at hc
    | cons a atts =>
      rw [blocks_cons, connections_append, connections_events] at hc
      rcases List.mem_append.mp hc with hc | hc
      · rw [List.mem_singleton.mp hc]; exact ⟨rfl, rfl⟩
      · exact ih _ atts c hc

theorem sends_events_refused (env : Env) (host topic : String) (k : Nat) (issue : Issue)
    (err : Error) : sends ((Attempt.refused err).events env host topic k issue) = [] := rfl

theorem sends_events_answered (env : Env) (host topic : String) (k : Nat) (issue : Issue)
    (r : Option Error) :
    sends ((Attempt.answered r).events env host topic k issue)
      = [(k, messageOf topic issue, r)] := by
  cases r <;> rfl

theorem sends_blocks_handles (env : Env) (host topic : String) (issues : Issues) :
    ∀ (k : Nat) (atts : List Attempt),
      (sends (blocks env host topic k issues atts)).map (fun s => s.1)
        = (connections (blocks env host topic k issues atts)).filterMap
            (fun c => c.2.2.handle) := by
  induction issues with
  | nil => intro k atts; rfl
  | cons issue rest ih =>
    intro k atts
    cases atts with
    | nil => rfl
    | cons a atts =>
      rw [blocks_cons, sends_append, connections_append, connections_events, List.map_append,
        List.filterMap_append, ih]
      rcases a with err | r
      · rw [sends_events_refused]; rfl
      · rw [sends_events_answered]; rfl

theorem sends_blocks_messages (env : Env) (host topic : String) (issues : Issues) :
    ∀ (k : Nat) (atts : List Attempt),
      (sends (blocks env host topic k issues atts)).map (fun s => s.2.1)
        = ((issues.zip (connections (blocks env host topic k issues atts))).filter
            (fun x => x.2.2.2.isProducer)).map (fun x => messageOf topic x.1) := by
  induction issues with
  | nil => intro k atts; rfl
  | cons issue rest ih =>
    intro k atts
    cases atts with
    | nil => rfl
    | cons a atts =>
      rw [blocks_cons, sends_append, connections_append, connections_events, List.map_append,
        ih]
      rcases a with err | r
      · rw [sends_events_refused]
        simp [Attempt.opened, Opened.isProducer]
      · rw [sends_events_answered]
        simp [Attempt.opened, Opened.isProducer]

theorem sends_blocks_answered (env : Env) (host topic : String) (issues : Issues) :
    ∀ (k : Nat) (atts : List Attempt), atts.length = issues.length →
      (∀ a ∈ atts, ∃ r, a = Attempt.answered r) →
      (sends (blocks env host topic k issues atts)).map (fun s => s.2.1)
        = issues.map (messageOf topic) := by
  induction issues with
  | nil => intro k atts _ _; rfl
  | cons issue rest ih =>
    intro k atts hlen hall
    cases atts with
    | nil => simp at hlen
    | cons a atts =>
      obtain ⟨r, rfl⟩ := hall a (List.mem_cons_self _ _)
      rw [blocks_cons, sends_append, List.map_append, sends_events_answered,
        ih _ atts (by simpa using hlen) (fun b hb => hall b (List.mem_cons_of_mem _ hb))]
      rfl

theorem accepted_events (env : Env) (host topic : String) (k : Nat) (issue : Issue)
    (a : Attempt) :
    (accepted (a.events env host topic k issue)).length
      = if a = Attempt.answered none then 1 else 0 := by
  rcases a with err | _ | err <;> rfl

theorem accepted_blocks_length (env : Env) (host topic : String) (issues : Issues) :
    ∀ (k : Nat) (atts : List Attempt), atts.length = issues.length →
      (accepted (blocks env host topic k issues atts)).length = delivered atts := by
  induction issues with
  | nil =>
    intro k atts hlen
    cases atts with
    | nil => rfl
    | cons a atts => simp at hlen
  | cons issue rest ih =>
    intro k atts hlen
    cases atts with
    | nil => simp at hlen
    | cons a atts =>
      rw [blocks_cons, accepted_append, List.length_append, accepted_events,
        ih _ atts (by simpa using hlen)]
      by_cases ha : a = Attempt.answered none
      · subst ha; simp [delivered, Nat.add_comm]
      · have hne : ¬ (a == Attempt.answered none) = true := by simpa using ha
        simp [delivered, ha, List.count_cons, hne]

theorem delivered_le (atts : List Attempt) : delivered atts ≤ atts.length :=
  List.count_le_length _ _

theorem events_length_pos (env : Env) (host topic : String) (k : Nat) (issue : Issue)
    (a : Attempt) : 2 ≤ (a.events env host topic k issue).length := by
  rcases a with err | _ | err <;> simp [Attempt.events]

theorem lifeOf_events (env : Env) (host topic : String) (k : Nat) (issue : Issue)
    (a : Attempt) (p : Nat) :
    lifeOf p (a.events env host topic k issue) = [] ∨
      (p = k ∧ ∃ err, lifeOf p (a.events env host topic k issue)
        = [Event.NewSyncProducer [host] (saramaConfig env) (Opened.producer p),
            Event.SendMessage p (messageOf topic issue) err, Event.Close p]) := by
  by_cases hp : p = k
  · subst hp
    rcases a with err | _ | err
    · left; simp [lifeOf, Attempt.events, Event.onProducer]
    · right; exact ⟨rfl, none, by simp [lifeOf, Attempt.events, Event.onProducer]⟩
    · right; exact ⟨rfl, some err, by simp [lifeOf, Attempt.events, Event.onProducer]⟩
  · left
    rcases a with err | _ | err <;> simp [lifeOf, Attempt.events, Event.onProducer, hp]

theorem lifeOf_blocks_early (env : Env) (host topic : String) (issues : Issues) :
    ∀ (k : Nat) (atts : List Attempt) (p : Nat), p < k →
      lifeOf p (blocks env host topic k issues atts) = [] := by
  induction issues with
  | nil => intro k atts p _; rfl
  | cons issue rest ih =>
    intro k atts p hp
    cases atts with
    | nil => rfl
    | cons a atts =>
      rw [blocks_cons, lifeOf_append, ih _ atts p (by omega)]
      rcases lifeOf_events env host topic k issue a p with h | ⟨h, _⟩
      · rw [h]; rfl
      · omega

theorem lifeOf_blocks (env : Env) (host topic : String) (issues : Issues) :
    ∀ (k : Nat) (atts : List Attempt) (p : Nat),
      lifeOf p (blocks env host topic k issues atts) = [] ∨
        ∃ msg err, lifeOf p (blocks env host topic k issues atts)
          = [Event.NewSyncProducer [host] (saramaConfig env) (Opened.producer p),
              Event.SendMessage p msg err, Event.Close p] := by
  induction issues with
  | nil => intro k atts p; left; rfl
  | cons issue rest ih =>
    intro k atts p
    cases atts with
    | nil => left; rfl
    | cons a atts =>
      rw [blocks_cons, lifeOf_append]
      rcases lifeOf_events env host topic k issue a p with h | ⟨hk, err, h⟩
      · rw [h, List.nil_append]; exact ih _ atts p
      · have h2 := events_length_pos env host topic k issue a
        rw [h, lifeOf_blocks_early env host topic rest _ atts p (by omega), List.append_nil]
        exact Or.inr ⟨_, err, rfl⟩

theorem stillOpen_events (env : Env) (host topic : String) (k : Nat) (issue : Issue)
    (a : Attempt) : stillOpen (a.events env host topic k issue) [] = [] := by
  rcases a with err | _ | err <;> simp [Attempt.events, stillOpen]

theorem stillOpen_blocks (env : Env) (host topic : String) (issues : Issues) :
    ∀ (k : Nat) (atts : List Attempt), stillOpen (blocks env host topic k issues atts) [] = [] := by
  induction issues with
  | nil => intro k atts; rfl
  | cons issue rest ih =>
    intro k atts
    cases atts with
    | nil => rfl
    | cons a atts => rw [blocks_cons, stillOpen_append, stillOpen_events, ih]

/-! ## Runs of `sendData` -/

theorem sendData_run (env : Env) (bytes : List UInt8) (host topic : String) (issues : Issues)
    (hdec : json.Unmarshal bytes = Except.ok issues) :
    ∃ atts : List Attempt, atts.length = issues.length ∧ (∀ a ∈ atts, a.possible env host) ∧
      sendData env bytes host topic []
        = blocks env host topic 0 issues atts
          ++ [Event.Stdout (summary (delivered atts) issues.length)] := by
  obtain ⟨atts, hlen, hposs, hrun⟩ := sendLoop_blocks env host topic issues 0 []
  refine ⟨atts, hlen, hposs, ?_⟩
  simp only [sendData, hdec, hrun]
  simp

theorem sendData_failed (env : Env) (bytes : List UInt8) (host topic : String) (err : Error)
    (tr : Trace) (hdec : json.Unmarshal bytes = Except.error err) :
    sendData env bytes host topic tr = tr ++ [Event.Stdout (err ++ "\n")] := by
  simp only [sendData, hdec]

theorem connections_stdout (B : Trace) (text : String) :
    connections (B ++ [Event.Stdout text]) = connections B := by
  rw [connections_append]; exact List.append_nil _

theorem sends_stdout (B : Trace) (text : String) :
    sends (B ++ [Event.Stdout text]) = sends B := by
  rw [sends_append]; exact List.append_nil _

theorem accepted_stdout (B : Trace) (text : String) :
    accepted (B ++ [Event.Stdout text]) = accepted B := by
  rw [accepted_append]; exact List.append_nil _

theorem brokerCalls_stdout (B : Trace) (text : String) :
    brokerCalls (B ++ [Event.Stdout text]) = brokerCalls B := by
  rw [brokerCalls_append]; exact List.append_nil _

theorem lifeOf_stdout (p : Nat) (B : Trace) (text : String) :
    lifeOf p (B ++ [Event.Stdout text]) = lifeOf p B := by
  rw [lifeOf_append]; exact List.append_nil _

theorem stdout_stdout (B : Trace) (text : String) :
    stdout (B ++ [Event.Stdout text]) = stdout B ++ [text] := by
  rw [stdout_append]; rfl

/-- C1: when the input decodes to `issues`, the one line `sendData` prints is
"<sent> / <total> messages sent" where `sent` is the number of sends the broker
answered without an error and `total` is the number of decoded records, and
`sent` is at most `total`. -/
theorem sendData_summary (env : Env) (bytes : List UInt8) (host topic : String)
    (issues : Issues) (hdec : json.Unmarshal bytes = Except.ok issues) :
    stdout (sendData env bytes host topic [])
        = [summary ((sends (sendData env bytes host topic [])).filter
            (fun s => s.2.2.isNone)).length issues.length]
      ∧ ((sends (sendData env bytes host topic [])).filter
            (fun s => s.2.2.isNone)).length ≤ issues.length := by
  obtain ⟨atts, hlen, _, hrun⟩ := sendData_run env bytes host topic issues hdec
  have hacc := accepted_blocks_length env host topic issues 0 atts hlen
  simp only [accepted, List.length_map] at hacc
  rw [hrun, stdout_stdout, sends_stdout, stdout_blocks, hacc]
  exact ⟨rfl, hlen ▸ delivered_le atts⟩

/-- Witness for C1: the list of one issue, sent through a broker that accepts
everything, prints "1 / 1 messages sent". -/
theorem sendData_summary_witness :
    json.Unmarshal oneIssue
        = Except.ok [{ ID := 1, Title := "a", State := "open", Body := "x" }]
      ∧ stdout (sendData acceptAll oneIssue "kafkahost:9092" "mytopic" [])
        = ["1 / 1 messages sent\n"] := by
  have hdec : json.Unmarshal oneIssue
      = Except.ok [{ ID := 1, Title := "a", State := "open", Body := "x" }] := by rfl
  refine ⟨hdec, ?_⟩
  rw [(sendData_summary acceptAll oneIssue "kafkahost:9092" "mytopic" _ hdec).1]
  decide

/-- C2: when decoding fails, `sendData` does nothing but print the error: no
producer is opened, nothing is sent, no call reaches the broker, and no summary
is printed; the number of records sent and the number attempted are both 0. -/
theorem sendData_decode_failure (env : Env) (bytes : List UInt8) (host topic : String)
    (err : Error) (hdec : json.Unmarshal bytes = Except.error err) :
    sendData env bytes host topic [] = [Event.Stdout (err ++ "\n")]
      ∧ connections (sendData env bytes host topic []) = []
      ∧ sends (sendData env bytes host topic []) = []
      ∧ brokerCalls (sendData env bytes host topic []) = []
      ∧ (accepted (sendData env bytes host topic [])).length = 0
      ∧ (connections (sendData env bytes host topic [])).length = 0 := by
  rw [sendData_failed env bytes host topic err [] hdec]
  exact ⟨rfl, rfl, rfl, rfl, rfl, rfl⟩

/-- Witness for C2: a buffer that is not JSON, and a broker that would accept
everything. -/
theorem sendData_decode_failure_witness :
    json.Unmarshal notJson = Except.error "json: invalid input"
      ∧ sendData acceptAll notJson "kafkahost:9092" "mytopic" []
        = [Event.Stdout "json: invalid input\n"]
      ∧ brokerCalls (sendData acceptAll notJson "kafkahost:9092" "mytopic" []) = [] :=
  have hdec : json.Unmarshal notJson = Except.error "json: invalid input" := by rfl
  have h := sendData_decode_failure acceptAll notJson "kafkahost:9092" "mytopic" _ hdec
  ⟨hdec, h.1, h.2.2.2.1⟩

theorem filter_map_zip {α β γ : Type} (f : α → γ) (g : β → γ) (P : β → Bool) :
    ∀ (xs : List α) (ys : List β), ys.map g = xs.map f →
      (ys.filter P).map g = ((xs.zip ys).filter (fun x => P x.2)).map (fun x => f x.1) := by
  intro xs
  induction xs with
  | nil =>
    intro ys h
    have : ys = [] := by simpa using h
    subst this; rfl
  | cons x xs ih =>
    intro ys h
    cases ys with
    | nil => simp at h
    | cons y ys =>
      simp only [List.map_cons, List.cons.injEq] at h
      have hrec := ih ys h.2
      by_cases hP : P y = true
      · simp [List.zip_cons_cons, List.filter_cons, hP, h.1, hrec]
      · simp [List.zip_cons_cons, List.filter_cons, hP, hrec]

theorem answered_of_possible (env : Env) (host : String)
    (hopen : ∀ h addrs config, env.NewSyncProducer h addrs config = none)
    (a : Attempt) (ha : a.possible env host) : ∃ r, a = Attempt.answered r := by
  cases a with
  | refused err =>
    obtain ⟨h, hh⟩ := ha
    rw [hopen] at hh
    cases hh
  | answered r => exact ⟨r, rfl⟩

theorem refused_of_possible (env : Env) (host : String)
    (hfail : ∀ h addrs config, env.NewSyncProducer h addrs config ≠ none)
    (a : Attempt) (ha : a.possible env host) : ∃ err, a = Attempt.refused err := by
  cases a with
  | refused err => exact ⟨err, rfl⟩
  | answered r =>
    obtain ⟨h, hh⟩ := ha
    exact absurd hh (hfail _ _ _)

/-- C3: with a broker that lets every producer open, whatever it answers to the
sends: every record is sent, in the order of the batch, each as the message made
from its own encoding; the payloads accepted are the encodings of the records
whose send was not rejected, in their original order; and the summary counts
them. -/
theorem sendData_isolation (env : Env) (bytes : List UInt8) (host topic : String)
    (issues : Issues) (hdec : json.Unmarshal bytes = Except.ok issues)
    (hopen : ∀ h addrs config, env.NewSyncProducer h addrs config = none) :
    (sends (sendData env bytes host topic [])).map (fun s => s.2.1)
        = issues.map (messageOf topic)
      ∧ accepted (sendData env bytes host topic [])
        = ((issues.zip (sends (sendData env bytes host topic []))).filter
            (fun x => x.2.2.2.isNone)).map (fun x => String.mk (json.encodeIssue x.1))
      ∧ stdout (sendData env bytes host topic [])
        = [summary (accepted (sendData env bytes host topic [])).length issues.length] := by
  obtain ⟨atts, hlen, hposs, hrun⟩ := sendData_run env bytes host topic issues hdec
  have hall : ∀ a ∈ atts, ∃ r, a = Attempt.answered r :=
    fun a ha => answered_of_possible env host hopen a (hposs a ha)
  have hmsgs := sends_blocks_answered env host topic issues 0 atts hlen hall
  have hacc := accepted_blocks_length env host topic issues 0 atts hlen
  rw [hrun, sends_stdout, accepted_stdout, stdout_stdout, stdout_blocks, hacc]
  refine ⟨hmsgs, ?_, rfl⟩
  have hvalues : (sends (blocks env host topic 0 issues atts)).map (fun s => s.2.1.Value)
      = issues.map (fun issue => String.mk (json.encodeIssue issue)) := by
    have := congrArg (List.map (fun m : sarama.ProducerMessage => m.Value)) hmsgs
    simpa [List.map_map, Function.comp_def, messageOf] using this
  exact filter_map_zip (fun issue : Issue => String.mk (json.encodeIssue issue))
    (fun s : Nat × sarama.ProducerMessage × Option Error => s.2.1.Value)
    (fun s => s.2.2.isNone) issues _ hvalues

/-- Witness for C3: three records, a broker that rejects the second send: two of
three are counted and the broker accepted the first and the third payload, in
that order. -/
theorem sendData_isolation_witness :
    stdout (sendData rejectSecond threeIssues "kafkahost:9092" "mytopic" [])
        = ["2 / 3 messages sent\n"]
      ∧ accepted (sendData rejectSecond threeIssues "kafkahost:9092" "mytopic" [])
        = ["\x7b\"id\":1,\"title\":\"a\",\"state\":\"\",\"body\":\"\"\x7d",
           "\x7b\"id\":3,\"title\":\"\",\"state\":\"\",\"body\":\"z\"\x7d"]
      ∧ (sends (sendData rejectSecond threeIssues "kafkahost:9092" "mytopic" [])).map
          (fun s => s.2.1)
        = [messageOf "mytopic" { ID := 1, Title := "a", State := "", Body := "" },
           messageOf "mytopic" { ID := 2, Title := "", State := "", Body := "" },
           messageOf "mytopic" { ID := 3, Title := "", State := "", Body := "z" }] := by
  have hdec : json.Unmarshal threeIssues
      = Except.ok [{ ID := 1, Title := "a", State := "", Body := "" },
          { ID := 2, Title := "", State := "", Body := "" },
          { ID := 3, Title := "", State := "", Body := "z" }] := by rfl
  have h := sendData_isolation rejectSecond threeIssues "kafkahost:9092" "mytopic" _ hdec
    (fun _ _ _ => rfl)
  exact ⟨by decide, by decide, h.1⟩

theorem sends_length_le (env : Env) (host topic : String) (issues : Issues) (k : Nat)
    (atts : List Attempt) (hlen : atts.length = issues.length) :
    (sends (blocks env host topic k issues atts)).length ≤ issues.length := by
  have h := congrArg List.length (sends_blocks_handles env host topic issues k atts)
  rw [List.length_map] at h
  rw [h, ← connections_blocks_length env host topic issues k atts hlen]
  exact List.length_filterMap_le _ _

/-- Counterexample to C4 as stated: with the empty list no producer is opened at
all, and with three records three producers are opened, one after the other. -/
theorem one_connection_counterexample :
    json.Unmarshal noIssues = Except.ok []
      ∧ sendData acceptAll noIssues "kafkahost:9092" "mytopic" []
        = [Event.Stdout "0 / 0 messages sent\n"]
      ∧ (connections (sendData acceptAll noIssues "kafkahost:9092" "mytopic" [])).length ≠ 1
      ∧ (connections (sendData acceptAll threeIssues "kafkahost:9092" "mytopic" [])).map
          (fun c => c.2.2)
        = [Opened.producer 0, Opened.producer 3, Opened.producer 6] :=
  ⟨by rfl, by decide, by decide, by decide⟩

/-- C4, amended: when the input decodes to `issues`, a run tries to open one
producer per record, each to the given address alone and each with the fixed
configuration; the producers used by the sends are, in order, the producers that
opened, so every send uses the producer opened for its record; there are at most
as many sends as records; and when the list is empty the run consists of the
line "0 / 0 messages sent" alone. -/
theorem sendData_connections (env : Env) (bytes : List UInt8) (host topic : String)
    (issues : Issues) (hdec : json.Unmarshal bytes = Except.ok issues) :
    (connections (sendData env bytes host topic [])).length = issues.length
      ∧ (∀ c ∈ connections (sendData env bytes host topic []),
          c.1 = [host] ∧ c.2.1 = saramaConfig env)
      ∧ (sends (sendData env bytes host topic [])).map (fun s => s.1)
        = (connections (sendData env bytes host topic [])).filterMap (fun c => c.2.2.handle)
      ∧ (sends (sendData env bytes host topic [])).length ≤ issues.length
      ∧ (issues = [] →
          sendData env bytes host topic [] = [Event.Stdout "0 / 0 messages sent\n"]) := by
  obtain ⟨atts, hlen, _, hrun⟩ := sendData_run env bytes host topic issues hdec
  rw [hrun, connections_stdout, sends_stdout]
  refine ⟨connections_blocks_length env host topic issues 0 atts hlen,
    connections_blocks_mem env host topic issues 0 atts,
    sends_blocks_handles env host topic issues 0 atts,
    sends_length_le env host topic issues 0 atts hlen, ?_⟩
  intro hnil
  subst hnil
  have : atts = [] := List.eq_nil_of_length_eq_zero hlen
  subst this
  rfl

/-- Witness for C4, amended: three records give three producers, and the empty
list gives none. -/
theorem sendData_connections_witness :
    (connections (sendData acceptAll threeIssues "kafkahost:9092" "mytopic" [])).length = 3
      ∧ (sends (sendData acceptAll threeIssues "kafkahost:9092" "mytopic" [])).map
          (fun s => s.1) = [0, 3, 6]
      ∧ sendData acceptAll noIssues "kafkahost:9092" "mytopic" []
        = [Event.Stdout "0 / 0 messages sent\n"] := by
  have hdec : json.Unmarshal threeIssues
      = Except.ok [{ ID := 1, Title := "a", State := "", Body := "" },
          { ID := 2, Title := "", State := "", Body := "" },
          { ID := 3, Title := "", State := "", Body := "z" }] := by rfl
  have hnone : json.Unmarshal noIssues = Except.ok [] := by rfl
  have h := sendData_connections acceptAll threeIssues "kafkahost:9092" "mytopic" _ hdec
  have h0 := sendData_connections acceptAll noIssues "kafkahost:9092" "mytopic" _ hnone
  exact ⟨h.1, by decide, h0.2.2.2.2 rfl⟩

theorem sends_blocks_refused (env : Env) (host topic : String) (issues : Issues) :
    ∀ (k : Nat) (atts : List Attempt), (∀ a ∈ atts, ∃ err, a = Attempt.refused err) →
      sends (blocks env host topic k issues atts) = [] := by
  induction issues with
  | nil => intro k atts _; rfl
  | cons issue rest ih =>
    intro k atts hall
    cases atts with
    | nil => rfl
    | cons a atts =>
      obtain ⟨err, rfl⟩ := hall a (List.mem_cons_self _ _)
      rw [blocks_cons, sends_append, sends_events_refused,
        ih _ atts (fun b hb => hall b (List.mem_cons_of_mem _ hb))]
      rfl

theorem brokerCalls_blocks_refused (env : Env) (host topic : String) (issues : Issues) :
    ∀ (k : Nat) (atts : List Attempt), atts.length = issues.length →
      (∀ a ∈ atts, ∃ err, a = Attempt.refused err) →
      (brokerCalls (blocks env host topic k issues atts)).length = issues.length
        ∧ ∀ e ∈ brokerCalls (blocks env host topic k issues atts), ∃ err,
            e = Event.NewSyncProducer [host] (saramaConfig env) (Opened.failed err) := by
  induction issues with
  | nil => intro k atts _ _; exact ⟨rfl, fun e he => by simp [blocks, brokerCalls] at he⟩
  | cons issue rest ih =>
    intro k atts hlen hall
    cases atts with
    | nil => simp at hlen
    | cons a atts =>
      obtain ⟨err, rfl⟩ := hall a (List.mem_cons_self _ _)
      obtain ⟨h1, h2⟩ := ih (k + ((Attempt.refused err).events env host topic k issue).length)
        atts (by simpa using hlen) (fun b hb => hall b (List.mem_cons_of_mem _ hb))
      have hev : brokerCalls ((Attempt.refused err).events env host topic k issue)
          = [Event.NewSyncProducer [host] (saramaConfig env) (Opened.failed err)] := rfl
      rw [blocks_cons, brokerCalls_append, hev]
      refine ⟨by simp [h1], ?_⟩
      intro e he
      rcases List.mem_append.mp he with he | he
      · exact ⟨err, List.mem_singleton.mp he⟩
      · exact h2 e he

theorem delivered_refused (atts : List Attempt)
    (hall : ∀ a ∈ atts, ∃ err, a = Attempt.refused err) : delivered atts = 0 := by
  apply List.count_eq_zero.mpr
  intro hmem
  obtain ⟨err, h⟩ := hall _ hmem
  cases h

/-- Counterexample to C5 as stated: the first attempt to open a producer fails,
yet the two later records are attempted and sent, two records are counted, and
the last call the broker sees is the close of the third record's producer. -/
theorem connection_abort_counterexample :
    (connections (sendData refuseFirst threeIssues "kafkahost:9092" "mytopic" [])).map
        (fun c => c.2.2)
        = [Opened.failed "kafka: client has run out of available brokers",
           Opened.producer 2, Opened.producer 5]
      ∧ accepted (sendData refuseFirst threeIssues "kafkahost:9092" "mytopic" [])
        = ["\x7b\"id\":2,\"title\":\"\",\"state\":\"\",\"body\":\"\"\x7d",
           "\x7b\"id\":3,\"title\":\"\",\"state\":\"\",\"body\":\"z\"\x7d"]
      ∧ stdout (sendData refuseFirst threeIssues "kafkahost:9092" "mytopic" [])
        = ["2 / 3 messages sent\n"]
      ∧ (brokerCalls (sendData refuseFirst threeIssues "kafkahost:9092" "mytopic" [])).getLast?
        = some (Event.Close 5) :=
  ⟨by decide, by decide, by decide, by decide⟩

/-- C5, amended: a failure to open a producer concerns one record only.  One
attempt to open a producer is made per record, and the messages sent are those of
the records whose producer opened, in order.  When no producer can be opened at
all, nothing is sent, the summary counts 0, and the broker sees one failed
attempt to open per record and nothing else. -/
theorem sendData_connection_failure (env : Env) (bytes : List UInt8) (host topic : String)
    (issues : Issues) (hdec : json.Unmarshal bytes = Except.ok issues) :
    (connections (sendData env bytes host topic [])).length = issues.length
      ∧ (sends (sendData env bytes host topic [])).map (fun s => s.2.1)
        = ((issues.zip (connections (sendData env bytes host topic []))).filter
            (fun x => x.2.2.2.isProducer)).map (fun x => messageOf topic x.1)
      ∧ ((∀ h addrs config, env.NewSyncProducer h addrs config ≠ none) →
          sends (sendData env bytes host topic []) = []
            ∧ stdout (sendData env bytes host topic []) = [summary 0 issues.length]
            ∧ (brokerCalls (sendData env bytes host topic [])).length = issues.length
            ∧ ∀ e ∈ brokerCalls (sendData env bytes host topic []), ∃ err,
                e = Event.NewSyncProducer [host] (saramaConfig env) (Opened.failed err)) := by
  obtain ⟨atts, hlen, hposs, hrun⟩ := sendData_run env bytes host topic issues hdec
  rw [hrun, connections_stdout, sends_stdout, brokerCalls_stdout, stdout_stdout, stdout_blocks]
  refine ⟨connections_blocks_length env host topic issues 0 atts hlen,
    sends_blocks_messages env host topic issues 0 atts, ?_⟩
  intro hfail
  have hall : ∀ a ∈ atts, ∃ err, a = Attempt.refused err :=
    fun a ha => refused_of_possible env host hfail a (hposs a ha)
  obtain ⟨h1, h2⟩ := brokerCalls_blocks_refused env host topic issues 0 atts hlen hall
  rw [delivered_refused atts hall]
  exact ⟨sends_blocks_refused env host topic issues 0 atts hall, rfl, h1, h2⟩

/-- Witness for C5, amended: three records and a broker that cannot be reached:
three failed attempts, nothing sent, "0 / 3 messages sent". -/
theorem sendData_connection_failure_witness :
    (connections (sendData refuseAll threeIssues "kafkahost:9092" "mytopic" [])).length = 3
      ∧ sends (sendData refuseAll threeIssues "kafkahost:9092" "mytopic" []) = []
      ∧ stdout (sendData refuseAll threeIssues "kafkahost:9092" "mytopic" [])
        = ["0 / 3 messages sent\n"]
      ∧ (brokerCalls (sendData refuseAll threeIssues "kafkahost:9092" "mytopic" [])).length
        = 3 := by
  have hdec : json.Unmarshal threeIssues
      = Except.ok [{ ID := 1, Title := "a", State := "", Body := "" },
          { ID := 2, Title := "", State := "", Body := "" },
          { ID := 3, Title := "", State := "", Body := "z" }] := by rfl
  have h := sendData_connection_failure refuseAll threeIssues "kafkahost:9092" "mytopic" _ hdec
  have hfail : ∀ (h : Trace) (addrs : List String) (config : sarama.Config),
      refuseAll.NewSyncProducer h addrs config ≠ none := fun _ _ _ hh => by cases hh
  exact ⟨h.1, (h.2.2 hfail).1, (h.2.2 hfail).2.1, (h.2.2 hfail).2.2.1⟩

/-- C6: in every run of `sendData`, the events about any one producer are either
none at all or exactly three: it is opened, one message is sent on it (whatever
the answer), and it is closed, in this order; so every producer that opened is
closed exactly once and after its send, and every send and close is on a producer
that opened; and no producer is open when `sendData` returns. -/
theorem sendData_releases (env : Env) (bytes : List UInt8) (host topic : String) :
    (∀ p : Nat, lifeOf p (sendData env bytes host topic []) = [] ∨
        ∃ msg err, lifeOf p (sendData env bytes host topic [])
          = [Event.NewSyncProducer [host] (saramaConfig env) (Opened.producer p),
              Event.SendMessage p msg err, Event.Close p])
      ∧ stillOpen (sendData env bytes host topic []) [] = [] := by
  cases hdec : json.Unmarshal bytes with
  | error err =>
    rw [sendData_failed env bytes host topic err [] hdec]
    exact ⟨fun p => Or.inl rfl, rfl⟩
  | ok issues =>
    obtain ⟨atts, _, _, hrun⟩ := sendData_run env bytes host topic issues hdec
    rw [hrun]
    refine ⟨fun p => ?_, ?_⟩
    · rw [lifeOf_stdout]; exact lifeOf_blocks env host topic issues 0 atts p
    · rw [stillOpen_append, stillOpen_blocks]; rfl

/-- Failing input for C8: the 15 seconds that `sendData` passes never reach the
producer.  The result of `writeToKafkaTopic` does not depend on its `timeout`
argument, the configuration keeps the library's value of `Producer.Timeout`, and
with the library's default of 10 seconds the producer that sends the one issue of
`oneIssue` runs with a timeout of 10 seconds, not 15. -/
theorem timeout_not_applied :
    (∀ (env : Env) (host topic message : String) (headers : List sarama.RecordHeader)
        (t1 t2 : time.Duration) (tr : Trace),
        writeToKafkaTopic env host topic message headers t1 tr
          = writeToKafkaTopic env host topic message headers t2 tr)
      ∧ (∀ env : Env, (saramaConfig env).Producer.Timeout = env.NewConfig.Producer.Timeout)
      ∧ (connections (sendData acceptAll oneIssue "kafkahost:9092" "mytopic" [])).map
          (fun c => c.2.1.Producer.Timeout) = [10 * time.Second]
      ∧ (10 * time.Second : time.Duration) ≠ time.Second * 15 :=
  ⟨fun _ _ _ _ _ _ _ _ => rfl, fun _ => rfl, by decide, by decide⟩

/-- C9: the configuration of every producer is the library default with required
acknowledgments set to wait-for-all, success reporting switched on, the hash
partitioner and version 1.0.0.0, every other setting being left as the library
made it; and every attempt to open a producer, in any run with any input, host
and topic, is given exactly this configuration. -/
theorem saramaConfig_fixed (env : Env) (bytes : List UInt8) (host topic : String) :
    saramaConfig env
        = { Net := env.NewConfig.Net
            Producer :=
              { MaxMessageBytes := env.NewConfig.Producer.MaxMessageBytes
                RequiredAcks := sarama.RequiredAcks.WaitForAll
                Timeout := env.NewConfig.Producer.Timeout
                Compression := env.NewConfig.Producer.Compression
                Partitioner := sarama.PartitionerConstructor.NewHashPartitioner
                Return := { Successes := true, Errors := env.NewConfig.Producer.Return.Errors }
                RetryMax := env.NewConfig.Producer.RetryMax }
            ClientID := env.NewConfig.ClientID
            Version := ⟨(1, 0, 0, 0)⟩ }
      ∧ ∀ c ∈ connections (sendData env bytes host topic []), c.2.1 = saramaConfig env := by
  refine ⟨rfl, ?_⟩
  cases hdec : json.Unmarshal bytes with
  | error err =>
    rw [sendData_failed env bytes host topic err [] hdec]
    intro c hc
    simp [connections] at hc
  | ok issues =>
    obtain ⟨atts, _, _, hrun⟩ := sendData_run env bytes host topic issues hdec
    rw [hrun, connections_stdout]
    intro c hc
    exact (connections_blocks_mem env host topic issues 0 atts c hc).2

/-- Counterexample to C10 as stated: a response with status 203, a 2xx code, and
a readable body ends the process with the status reported; the body is not
returned. -/
theorem readData_status_counterexample :
    readData (github 203 (Except.ok oneIssue)) []
      = (Outcome.fatal "Couldn't read github: response code 203\n",
          [Event.HttpDo "GET" "https://api.github.com/repos/elastic/beats/issues"]) := by
  decide

/-- C10, amended: for a response obtained without transport error, `readData`
returns the body exactly when the status code is 200 and the body reads without
error; with status 200 and a failed read it ends the process with the read
error; with any other status it ends the process reporting the numeric status
code.  In every case exactly one request is made. -/
theorem readData_status (net : Net) (resp : Response)
    (hreq : net.NewRequest "GET" "https://api.github.com/repos/elastic/beats/issues" = none)
    (hdo : net.Do "GET" "https://api.github.com/repos/elastic/beats/issues" = Except.ok resp) :
    (∀ body, (readData net []).1 = Outcome.returned body
        ↔ resp.StatusCode = 200 ∧ resp.Body = Except.ok body)
      ∧ ((resp.StatusCode = 200 ∧ ∃ body, resp.Body = Except.ok body ∧
            readData net [] = (Outcome.returned body,
              [Event.HttpDo "GET" "https://api.github.com/repos/elastic/beats/issues",
                Event.BodyClose]))
          ∨ (resp.StatusCode = 200 ∧ ∃ err, resp.Body = Except.error err ∧
            readData net [] = (Outcome.fatal err,
              [Event.HttpDo "GET" "https://api.github.com/repos/elastic/beats/issues"]))
          ∨ (resp.StatusCode ≠ 200 ∧
            readData net [] = (Outcome.fatal (statusMessage resp.StatusCode),
              [Event.HttpDo "GET" "https://api.github.com/repos/elastic/beats/issues"]))) := by
  by_cases hcode : resp.StatusCode = 200
  · cases hbody : resp.Body with
    | error err =>
      have hrun : readData net [] = (Outcome.fatal err,
          [Event.HttpDo "GET" "https://api.github.com/repos/elastic/beats/issues"]) := by
        simp [readData, hreq, hdo, hcode, hbody, http.StatusOK]
      refine ⟨fun body => ?_, Or.inr (Or.inl ⟨hcode, err, rfl, hrun⟩)⟩
      rw [hrun]
      simp
    | ok bodyBytes =>
      have hrun : readData net [] = (Outcome.returned bodyBytes,
          [Event.HttpDo "GET" "https://api.github.com/repos/elastic/beats/issues",
            Event.BodyClose]) := by
        simp [readData, hreq, hdo, hcode, hbody, http.StatusOK]
      refine ⟨fun body => ?_, Or.inl ⟨hcode, bodyBytes, rfl, hrun⟩⟩
      rw [hrun]
      simp [hcode, eq_comm]
  · have hrun : readData net [] = (Outcome.fatal (statusMessage resp.StatusCode),
        [Event.HttpDo "GET" "https://api.github.com/repos/elastic/beats/issues"]) := by
      simp [readData, hreq, hdo, hcode, http.StatusOK]
    refine ⟨fun body => ?_, Or.inr (Or.inr ⟨hcode, hrun⟩)⟩
    rw [hrun]
    simp [hcode]

/-- Witness for C10, amended: status 200 and a readable body. -/
theorem readData_status_witness :
    (readData (github 200 (Except.ok oneIssue)) []).1 = Outcome.returned oneIssue :=
  ((readData_status (github 200 (Except.ok oneIssue))
      { StatusCode := 200, Body := Except.ok oneIssue } rfl rfl).1 oneIssue).mpr ⟨rfl, rfl⟩

theorem sends_blocks_issue (env : Env) (host topic : String) (issues : Issues) (k : Nat)
    (atts : List Attempt) :
    ∀ s ∈ sends (blocks env host topic k issues atts), ∃ issue ∈ issues,
      s.2.1 = messageOf topic issue := by
  intro s hs
  have hmem : s.2.1 ∈ (sends (blocks env host topic k issues atts)).map (fun s => s.2.1) :=
    List.mem_map.mpr ⟨s, hs, rfl⟩
  rw [sends_blocks_messages] at hmem
  obtain ⟨x, hx, hxs⟩ := List.mem_map.mp hmem
  have hzip := (List.mem_filter.mp hx).1
  exact ⟨x.1, (List.of_mem_zip (show (x.1, x.2) ∈ _ from hzip)).1, hxs.symm⟩

/-- C7: when the input decodes to `issues`, every message handed to the broker is
the message of one of the decoded records: its topic is the given topic, it has
no key and no headers, and its value is what `json.Marshal` gives for that
record, the text of an object with exactly the members `id` (the number `ID`),
`title`, `state` and `body` (the strings of the record); decoding that value
gives the record back. -/
theorem sendData_messages (env : Env) (bytes : List UInt8) (host topic : String)
    (issues : Issues) (hdec : json.Unmarshal bytes = Except.ok issues) :
    ∀ s ∈ sends (sendData env bytes host topic []), ∃ issue ∈ issues,
      s.2.1.Topic = topic ∧ s.2.1.Key = none ∧ s.2.1.Headers = []
        ∧ json.Marshal issue = Except.ok s.2.1.Value
        ∧ json.parseDocument s.2.1.Value.data
          = some (json.Value.object
              [(['i', 'd'], json.Value.number (json.formatInt issue.ID)),
               (['t', 'i', 't', 'l', 'e'], json.Value.string issue.Title.data),
               (['s', 't', 'a', 't', 'e'], json.Value.string issue.State.data),
               (['b', 'o', 'd', 'y'], json.Value.string issue.Body.data)])
        ∧ json.UnmarshalIssue s.2.1.Value = Except.ok issue := by
  obtain ⟨atts, _, _, hrun⟩ := sendData_run env bytes host topic issues hdec
  rw [hrun, sends_stdout]
  intro s hs
  obtain ⟨issue, hmem, hmsg⟩ := sends_blocks_issue env host topic issues 0 atts s hs
  refine ⟨issue, hmem, ?_⟩
  rw [hmsg]
  exact ⟨rfl, rfl, rfl, rfl, json.parseDocument_encodeIssue issue,
    json.UnmarshalIssue_Marshal issue (json.Unmarshal_fits bytes issues hdec issue hmem)⟩

/-- Witness for C7: the one issue of `oneIssue` is sent as the text of an object
with its four members, which decodes to it. -/
theorem sendData_messages_witness :
    sends (sendData acceptAll oneIssue "kafkahost:9092" "mytopic" [])
        = [(0, { Topic := "mytopic", Key := none,
                 Value := "\x7b\"id\":1,\"title\":\"a\",\"state\":\"open\",\"body\":\"x\"\x7d",
                 Headers := [] }, none)]
      ∧ json.UnmarshalIssue "\x7b\"id\":1,\"title\":\"a\",\"state\":\"open\",\"body\":\"x\"\x7d"
        = Except.ok { ID := 1, Title := "a", State := "open", Body := "x" } := by
  have hdec : json.Unmarshal oneIssue
      = Except.ok [{ ID := 1, Title := "a", State := "open", Body := "x" }] := by rfl
  have hsends : sends (sendData acceptAll oneIssue "kafkahost:9092" "mytopic" [])
      = [(0, { Topic := "mytopic", Key := none,
               Value := "\x7b\"id\":1,\"title\":\"a\",\"state\":\"open\",\"body\":\"x\"\x7d",
               Headers := [] }, none)] := by decide
  refine ⟨hsends, ?_⟩
  obtain ⟨issue, hmem, _, _, _, _, _, hback⟩ :=
    sendData_messages acceptAll oneIssue "kafkahost:9092" "mytopic" _ hdec _
      (hsends ▸ List.mem_singleton.mpr rfl)
  rw [List.mem_singleton.mp hmem] at hback
  exact hback

end KafkaWrite
